import Mathlib

/-!
# firodj/ebiten: DualShock 4 rumble driver, Ogg PCM buffer and shader tests

Shallow embedding of

* `internal/gamepad/joy_dualshock4_darwin.go` (namespace `Gamepad`),
* `exp/audio/ogg_js.go` (namespace `Audio`),
* the rendering behaviour exercised by `shader_test.go` (namespace `Ebiten`).

Machine integers are natural numbers or integers with explicit reduction, byte
slices are lists of natural numbers below 256, a panic is `none`.
-/

namespace Gamepad

/-! ## float64 -/

/-- Number of fractional bits of the float64 grid: every finite float64 is an
integer multiple of `2^-1074`. -/
def fracBits : Nat := 1074

/-- The float64 value `1.0`, counted in units of `2^-1074`. -/
def one64 : Nat := 2 ^ fracBits

/-- Overflow exponent: every finite float64 is below `2^1024` in magnitude. -/
def maxExp : Nat := 1024

/-- Values of Go's `float64`. A finite value is `± n · 2^-1074`; the type also
holds finite values with more than 53 significant bits, which arise as exact
intermediate results before rounding. -/
inductive Float64 where
  | nan : Float64
  | inf (neg : Bool) : Float64
  | fin (neg : Bool) (n : Nat) : Float64
deriving DecidableEq

/-- The float64 constant `0`. -/
def Float64.zero : Float64 := .fin false 0

/-- The float64 constant `1`. -/
def Float64.one : Float64 := .fin false one64

/-- Go's `x == 0` on float64: true for `+0` and `-0`, false for NaN. -/
def Float64.isZero : Float64 → Bool
  | .fin _ 0 => true
  | _ => false

/-- Go's `x <= y` on float64 (false when either side is NaN, `-0 <= +0`). -/
def Float64.le : Float64 → Float64 → Bool
  | .nan, _ => false
  | _, .nan => false
  | .inf true, _ => true
  | _, .inf false => true
  | .inf false, _ => false
  | _, .inf true => false
  | .fin false n, .fin false m => decide (n ≤ m)
  | .fin true n, .fin true m => decide (m ≤ n)
  | .fin true _, .fin false _ => true
  | .fin false n, .fin true m => decide (n = 0 ∧ m = 0)

/-- Round `n / 2^s` to the nearest integer, ties to even. -/
def rneShift (n s : Nat) : Nat :=
  let q := n / 2 ^ s
  let r := n % 2 ^ s
  if 2 ^ s < 2 * r ∨ (2 * r = 2 ^ s ∧ q % 2 = 1) then q + 1 else q

/-- Number of low bits of `n` that do not fit a 53-bit significand. -/
def excessBits (n : Nat) : Nat := (Nat.log2 n + 1) - 53

/-- The natural number `n` rounded to 53 significant bits, ties to even. -/
def round53 (n : Nat) : Nat := rneShift n (excessBits n) * 2 ^ excessBits n

/-- IEEE 754 round-to-nearest-even of the exact value `± n · 2^-1074` to a
float64: keep 53 significant bits; a result of `2^1024` or more is infinite. -/
def roundToFloat64 (neg : Bool) (n : Nat) : Float64 :=
  if round53 n < 2 ^ (maxExp + fracBits) then .fin neg (round53 n) else .inf neg

/-- The float64 product `x * c` where `c` is a non-negative integer constant
(exactly representable): the exact product, rounded once. -/
def Float64.mulConst (x : Float64) (c : Nat) : Float64 :=
  match x with
  | .nan => .nan
  | .inf neg => if c = 0 then .nan else .inf neg
  | .fin neg n => roundToFloat64 neg (n * c)

/-- Go's `math.Round`: nearest integer, halves away from zero; NaN and the
infinities are returned unchanged, the sign is kept. -/
def Round : Float64 → Float64
  | .fin neg n => .fin neg ((n + one64 / 2) / one64 * one64)
  | x => x

/-- Go's conversion `byte(x)` of a float64: the fraction is discarded; when the
integer does not fit a byte the result is implementation-dependent and is
taken from `oor`. -/
def toByte (oor : Float64 → Nat) (x : Float64) : Nat :=
  match x with
  | .fin neg n =>
    let t := n / one64
    if t = 0 then 0 else if neg = false ∧ t ≤ 255 then t else oor x % 256
  | _ => oor x % 256

/-! ## Constants -/

def kSonyProduct05c4 : Nat := 0x054c05c4
def kSonyProduct09cc : Nat := 0x054c09cc
def kScufProduct7725 : Nat := 0x2e957725

def kBusTypeUSB : String := "usb"
def kBusTypeBluetooth : String := "bluetooth"

def kReportId05 : Nat := 0x05
def kReportId11 : Nat := 0x11

def kRumbleMagnitudeMax : Nat := 0xff

/-- The expression `byte(math.Round(magnitude * kRumbleMagnitudeMax))` that fills
each motor byte. -/
def rumbleByte (oor : Float64 → Nat) (magnitude : Float64) : Nat :=
  toByte oor (Round (magnitude.mulConst kRumbleMagnitudeMax))

/-! ## CRC-32 -/

/-- One bit of the reflected CRC-32 register update (polynomial 0xEDB88320). -/
def crcStep (c : Nat) : Nat :=
  if c % 2 = 1 then (c / 2) ^^^ 0xEDB88320 else c / 2

/-- Feed one byte into the CRC-32 register. -/
def crcByte (c b : Nat) : Nat := crcStep^[8] (c ^^^ b)

/-- Go's `crc32.ChecksumIEEE`: CRC-32 with the IEEE polynomial, initial value
and final complement `0xFFFFFFFF`. -/
def ChecksumIEEE (data : List Nat) : Nat :=
  (data.foldl crcByte 0xFFFFFFFF) ^^^ 0xFFFFFFFF

/-! ## The driver -/

/-- A `time.Timer` made by `time.AfterFunc(d, f)`. Every callback of this
driver is a call of `ds4.vibrate`, so `f` holds the arguments of that call. -/
structure Timer where
  d : Int
  f : Int × Float64 × Float64
  stopped : Bool
  fired : Bool
deriving DecidableEq

/-- The `dualShock4` struct. `timer` is a pointer into the timer heap, `none`
is `nil`. -/
structure dualShock4 where
  gamepadId : Nat
  device : Nat
  busType : String
  timer : Option Nat
deriving DecidableEq

/-- The driver object together with the timers of the runtime and the log of
output reports handed to `_IOHIDDeviceSetReport`. -/
structure State where
  ds4 : dualShock4
  timers : List Timer
  reports : List (List Nat)
deriving DecidableEq

/-- Outcome of `_IOHIDDeviceSetReport(device, kIOHIDReportTypeOutput, id, report)`
compared with `kIOReturnSuccess`. -/
abbrev HID := Nat → Nat → List Nat → Bool

/-- Write `report[len(report)-4 ..]`; slicing `report[:len(report)-4]` panics
when the report is shorter than four bytes. -/
def computeDS4checksum (report : List Nat) : Option (List Nat) :=
  if report.length < 4 then none
  else
    let data := [0xa2] ++ report.take (report.length - 4)
    let crc := ChecksumIEEE data
    let report := report.set (report.length - 4) (crc &&& 0xff)
    let report := report.set (report.length - 3) ((crc >>> 8) &&& 0xff)
    let report := report.set (report.length - 2) ((crc >>> 16) &&& 0xff)
    let report := report.set (report.length - 1) ((crc >>> 24) &&& 0xff)
    some report

/-- The 32-byte report assembled by `vibrateUSB`. -/
def usbReport (oor : Float64 → Nat) (strongMagnitude weakMagnitude : Float64) : List Nat :=
  let control_report := List.replicate 32 0
  let control_report := control_report.set 0 kReportId05
  let control_report := control_report.set 1 0x01
  let control_report := control_report.set 4 (rumbleByte oor weakMagnitude)
  let control_report := control_report.set 5 (rumbleByte oor strongMagnitude)
  control_report

/-- The 78-byte report assembled by `vibrateBluetooth`, checksum included. -/
def bluetoothReport (oor : Float64 → Nat) (strongMagnitude weakMagnitude : Float64) :
    Option (List Nat) :=
  let control_report := List.replicate 78 0
  let control_report := control_report.set 0 kReportId11
  let control_report := control_report.set 1 0xc0
  let control_report := control_report.set 2 0x20
  let control_report := control_report.set 3 0xf1
  let control_report := control_report.set 4 0x04
  let control_report := control_report.set 6 (rumbleByte oor weakMagnitude)
  let control_report := control_report.set 7 (rumbleByte oor strongMagnitude)
  let control_report := control_report.set 21 0x43
  let control_report := control_report.set 22 0x43
  let control_report := control_report.set 24 0x4d
  let control_report := control_report.set 25 0x85
  computeDS4checksum control_report

def vibrateUSB (hid : HID) (oor : Float64 → Nat) (s : State)
    (strongMagnitude weakMagnitude : Float64) : State × Bool :=
  let control_report := usbReport oor strongMagnitude weakMagnitude
  ({ s with reports := s.reports ++ [control_report] },
    hid s.ds4.device (control_report.getD 0 0) control_report)

def vibrateBluetooth (hid : HID) (oor : Float64 → Nat) (s : State)
    (strongMagnitude weakMagnitude : Float64) : Option (State × Bool) :=
  match bluetoothReport oor strongMagnitude weakMagnitude with
  | none => none
  | some control_report =>
    some ({ s with reports := s.reports ++ [control_report] },
      hid s.ds4.device (control_report.getD 0 0) control_report)

/-- Go's `t.Stop()` on the timer at address `k`. -/
def stopTimer (timers : List Timer) (k : Nat) : List Timer :=
  match timers[k]? with
  | some t => timers.set k { t with stopped := true }
  | none => timers

/-- The first statement of `vibrate`: re-arm the auto-stop timer. -/
def armTimer (s : State) (duration : Int) (strongMagnitude weakMagnitude : Float64) : State :=
  if duration ≠ 0 ∧ (strongMagnitude.isZero = false ∨ weakMagnitude.isZero = false) then
    let timers := match s.ds4.timer with
      | some k => stopTimer s.timers k
      | none => s.timers
    { s with
      timers := timers ++ [{ d := duration, f := (0, Float64.zero, Float64.zero),
                             stopped := false, fired := false }]
      ds4 := { s.ds4 with timer := some timers.length } }
  else s

/-- The method `(*dualShock4).vibrate`; the results of `vibrateBluetooth` and
`vibrateUSB` are dropped, as the method has no result. -/
def vibrate (hid : HID) (oor : Float64 → Nat) (s : State) (duration : Int)
    (strongMagnitude weakMagnitude : Float64) : Option State :=
  let s := armTimer s duration strongMagnitude weakMagnitude
  if s.ds4.busType = kBusTypeBluetooth ∧ s.ds4.gamepadId ≠ kScufProduct7725 then
    match vibrateBluetooth hid oor s strongMagnitude weakMagnitude with
    | none => none
    | some r => some r.1
  else
    some (vibrateUSB hid oor s strongMagnitude weakMagnitude).1

/-- The runtime fires the timer at address `k`: unless it was stopped or has
fired before, its callback `ds4.vibrate(...)` runs. -/
def fire (hid : HID) (oor : Float64 → Nat) (s : State) (k : Nat) : Option State :=
  match s.timers[k]? with
  | none => some s
  | some t =>
    if t.stopped ∨ t.fired then some s
    else vibrate hid oor { s with timers := s.timers.set k { t with fired := true } }
      t.f.1 t.f.2.1 t.f.2.2

/-- The IOKit side of `queryBusType`: the transport property of a device (`none` when
`_IOHIDDeviceGetProperty` returns 0) and the values of `kIOHIDTransportUSBValue`,
`kIOHIDTransportBluetoothValue` and `kIOHIDTransportBluetoothLowEnergyValue`, which are
declared outside this file. -/
structure IOKit where
  transport : Nat → Option String
  kIOHIDTransportUSBValue : String
  kIOHIDTransportBluetoothValue : String
  kIOHIDTransportBluetoothLowEnergyValue : String

/-- Go's `vendor << 16 | product` on uint32 operands: bits shifted beyond bit 31 are
lost. -/
def packId (vendor product : Nat) : Nat := ((vendor <<< 16) % 2 ^ 32) ||| product

/-- The function `isDualShock4`: a switch over `(vendor << 16) | product`. -/
def isDualShock4 (vendor product : Nat) : Bool :=
  if packId vendor product = kSonyProduct05c4 then true
  else if packId vendor product = kSonyProduct09cc then true
  else if packId vendor product = kScufProduct7725 then true
  else false

/-- The function `queryBusType`. -/
def queryBusType (io : IOKit) (device : Nat) : String :=
  match io.transport device with
  | some transport =>
    if transport = io.kIOHIDTransportUSBValue then kBusTypeUSB
    else if transport = io.kIOHIDTransportBluetoothValue ∨
        transport = io.kIOHIDTransportBluetoothLowEnergyValue then kBusTypeBluetooth
    else ""
  | none => ""

/-- The function `newDualShock4`; the `timer` field starts as `nil`. -/
def newDualShock4 (io : IOKit) (device vendor product : Nat) : dualShock4 :=
  { device := device
    gamepadId := packId vendor product
    busType := queryBusType io device
    timer := none }

end Gamepad

namespace Audio

/-- Go's conversion `int16(z)`: the low 16 bits of `z`, read as two's complement. -/
def int16 (z : Int) : Int := (z + 32768) % 65536 - 32768

/-- Go's conversion `uint8(z)` of a signed integer: its low 8 bits. -/
def uint8 (z : Int) : Nat := (z % 256).toNat

/-- One iteration of the loop in the `decodeAudioData` callback of `NewOggStream`.
`toInt x` is the integer part of the float32 product `x * (1 << 15)`; reading
`il[i]` or `ir[i]` beyond the length panics. -/
def writeFrame {α : Type} (toInt : α → Int) (il ir : List α) (b : List Nat) (i : Nat) :
    Option (List Nat) :=
  match il[i]?, ir[i]? with
  | some x, some y =>
    let l := int16 (toInt x)
    let r := int16 (toInt y)
    let b := b.set (4 * i) (uint8 l)
    let b := b.set (4 * i + 1) (uint8 (l >>> (8 : Nat)))
    let b := b.set (4 * i + 2) (uint8 r)
    let b := b.set (4 * i + 3) (uint8 (r >>> (8 : Nat)))
    some b
  | _, _ => none

/-- The byte slice that the callback of `NewOggStream` hands to `bytes.NewReader`:
`make([]byte, len(il)*4)` filled by the loop over `i < len(il)`. -/
def pcmBuffer {α : Type} (toInt : α → Int) (il ir : List α) : Option (List Nat) :=
  (List.range il.length).foldlM (writeFrame toInt il ir) (List.replicate (il.length * 4) 0)

/-- A byte pair read as a little-endian signed 16-bit integer. -/
def decodeInt16LE (lo hi : Nat) : Int :=
  if lo + 256 * hi < 32768 then (lo + 256 * hi : Nat) else (lo + 256 * hi : Nat) - 65536

end Audio

namespace Ebiten

/-! ## Shading-language values

The shader compiler, the uniform binder, the draw calls and the image type are
not among the sources; only `shader_test.go` is. The definitions of this section
are modelled from the specification, with exact rational arithmetic for the
shading language's floats. -/

/-- Modelled from the spec: the shading-language type `vec2` (the compiler is missing). -/
structure vec2 where
  x : ℚ
  y : ℚ
deriving DecidableEq

/-- Modelled from the spec: the shading-language type `vec4` (the compiler is missing). -/
structure vec4 where
  x : ℚ
  y : ℚ
  z : ℚ
  w : ℚ
deriving DecidableEq

/-- Modelled from the spec: the shading-language type `mat4`, column-major:
`m[i] = vec4(...)` sets column `i` (the compiler is missing). -/
structure mat4 where
  c0 : vec4
  c1 : vec4
  c2 : vec4
  c3 : vec4
deriving DecidableEq

/-- Modelled from the spec: component-wise sum of `vec4` (the compiler is missing). -/
def vec4.add (u v : vec4) : vec4 := ⟨u.x + v.x, u.y + v.y, u.z + v.z, u.w + v.w⟩

/-- Modelled from the spec: `k * v` for a scalar `k` (the compiler is missing). -/
def vec4.scale (k : ℚ) (v : vec4) : vec4 := ⟨k * v.x, k * v.y, k * v.z, k * v.w⟩

/-- Modelled from the spec: `M * v` transforms the column vector `v`, that is the
combination of the columns of `M` with the components of `v` (the compiler is missing). -/
def mat4.mulVec (m : mat4) (v : vec4) : vec4 :=
  (((vec4.scale v.x m.c0).add (vec4.scale v.y m.c1)).add (vec4.scale v.z m.c2)).add
    (vec4.scale v.w m.c3)

/-- Modelled from the spec: `A * B` composes transforms; column `i` of the product is
`A` applied to column `i` of `B` (the compiler is missing). -/
def mat4.mul (a b : mat4) : mat4 :=
  ⟨a.mulVec b.c0, a.mulVec b.c1, a.mulVec b.c2, a.mulVec b.c3⟩

/-- Modelled from the spec: the built-in `mod(x, y)`, the floating remainder
`x - y * floor(x / y)` (the compiler is missing). -/
def mod (x y : ℚ) : ℚ := x - y * (⌊x / y⌋ : ℤ)

/-- The truncating remainder of C (`fmod`), for comparison with `mod`. -/
def truncMod (x y : ℚ) : ℚ :=
  x - y * (if 0 ≤ x / y then (⌊x / y⌋ : ℤ) else (⌈x / y⌉ : ℤ))

/-! ## Images -/

/-- Go's `color.RGBA`. -/
structure RGBA where
  R : Nat
  G : Nat
  B : Nat
  A : Nat
deriving DecidableEq

/-- Modelled from the spec: conversion of a colour component to an 8-bit channel,
`round(v * 255)` after clamping to `[0, 1]` (the graphics backend is missing). -/
def toChannel (v : ℚ) : Nat := (⌊max 0 (min 1 v) * 255 + 1 / 2⌋ : ℤ).toNat

/-- Modelled from the spec: a fragment colour stored as an RGBA8 pixel (the graphics
backend is missing). -/
def toRGBA (c : vec4) : RGBA := ⟨toChannel c.x, toChannel c.y, toChannel c.z, toChannel c.w⟩

/-- Modelled from the spec: an RGBA8 pixel read as a colour with components in `[0, 1]`
(the graphics backend is missing). -/
def ofRGBA (p : RGBA) : vec4 := ⟨p.R / 255, p.G / 255, p.B / 255, p.A / 255⟩

/-- Modelled from the spec: an `Image`, a `width × height` RGBA8 pixel buffer with the
origin of its effective region; `id` identifies the backing surface (the type
`ebiten.Image` is missing). -/
structure Image where
  id : Nat
  width : Nat
  height : Nat
  originX : Nat
  originY : Nat
  pix : Nat → Nat → RGBA

/-- Modelled from the spec: `NewImage(w, h)`, all pixels transparent black (the type
`ebiten.Image` is missing). -/
def NewImage (id w h : Nat) : Image := ⟨id, w, h, 0, 0, fun _ _ => ⟨0, 0, 0, 0⟩⟩

/-- Modelled from the spec: `At(x, y)`; outside the image the colour is transparent
black (the type `ebiten.Image` is missing). -/
def Image.At (img : Image) (i j : Nat) : RGBA :=
  if i < img.width ∧ j < img.height then img.pix i j else ⟨0, 0, 0, 0⟩

/-! ## Uniforms -/

/-- Modelled from the spec: the semantic type of a uniform declaration (the compiler
is missing). -/
inductive UType where
  | float : UType
  | vec (n : Nat) : UType
  | mat (n : Nat) : UType
  | array (len : Nat) (elem : UType) : UType
deriving DecidableEq

/-- Modelled from the spec: number of floats of a uniform in the flat buffer; an array
takes `len` times the stride of its element type, a one-element array included (the
compiler is missing). -/
def UType.size : UType → Nat
  | .float => 1
  | .vec n => n
  | .mat n => n * n
  | .array len elem => len * elem.size

/-- Modelled from the spec: a `UniformDecl` (the compiler is missing). -/
structure UniformDecl where
  name : String
  type : UType
deriving DecidableEq

/-- Modelled from the spec: a uniform value supplied at draw time, a tagged variant
(the uniform binder is missing). -/
inductive UniformValue where
  | Float (f : ℚ) : UniformValue
  | FloatSlice (fs : List ℚ) : UniformValue
deriving DecidableEq

/-- Modelled from the spec: the errors of a draw call (the draw calls are missing). The
data model has one pixel format, so the `FormatError` of the spec has no case here. -/
inductive DrawError where
  | BindingError : DrawError
  | IndexOutOfRangeError : DrawError
  | SelfDrawError : DrawError
deriving DecidableEq

/-- Modelled from the spec: the floats bound to one uniform; a missing value binds as
zero, a value of the wrong size is a `BindingError` (the uniform binder is missing). -/
def bindOne (d : UniformDecl) (v : Option UniformValue) : Except DrawError (List ℚ) :=
  match v with
  | none => .ok (List.replicate d.type.size 0)
  | some (.Float f) => if d.type = .float then .ok [f] else .error .BindingError
  | some (.FloatSlice fs) => if fs.length = d.type.size then .ok fs else .error .BindingError

/-- Modelled from the spec: the flat uniform buffer, the uniforms in declaration order
(the uniform binder is missing). -/
def bindUniforms (decls : List UniformDecl) (values : String → Option UniformValue) :
    Except DrawError (List ℚ) :=
  match decls with
  | [] => .ok []
  | d :: ds =>
    match bindOne d (values d.name), bindUniforms ds values with
    | .ok a, .ok rest => .ok (a ++ rest)
    | .error e, _ => .error e
    | _, .error e => .error e

/-- Modelled from the spec: the declared type of the uniform `name` (the compiler is
missing). -/
def declType (decls : List UniformDecl) (name : String) : Option UType :=
  match decls with
  | [] => none
  | d :: ds => if d.name = name then some d.type else declType ds name

/-- Modelled from the spec: offset of the uniform `name` in the flat buffer, the sizes
of the uniforms declared before it (the code generator is missing). -/
def uniformOffset (decls : List UniformDecl) (name : String) : Nat :=
  match decls with
  | [] => 0
  | d :: ds => if d.name = name then 0 else d.type.size + uniformOffset ds name

/-- Modelled from the spec: the shader expression `C[i]` for a uniform `C` of type
`[n]float` (the code generator is missing). -/
def floatArrayAt (decls : List UniformDecl) (buf : List ℚ) (name : String) (i : Nat) : ℚ :=
  buf.getD (uniformOffset decls name + i) 0

/-- Modelled from the spec: the shader expression `C[i][c][r]` for a uniform `C` of
type `[n]matK`, matrices column-major with stride `K * K` (the code generator is
missing). -/
def matArrayAt (decls : List UniformDecl) (buf : List ℚ) (name : String) (k i c r : Nat) : ℚ :=
  buf.getD (uniformOffset decls name + (i * (k * k) + c * k + r)) 0

/-! ## Draw calls -/

/-- Modelled from the spec: a compiled `Shader`, its uniform declarations and the
meaning of its `Fragment` entry point over the flat uniform buffer and the bound
images (the compiler is missing). -/
structure Shader where
  uniforms : List UniformDecl
  Fragment : List ℚ → (Fin 4 → Option Image) → vec4 → vec2 → vec4 → vec4

/-- Modelled from the spec: a `Vertex` (the type `ebiten.Vertex` is missing). -/
structure Vertex where
  DstX : ℚ
  DstY : ℚ
  SrcX : ℚ
  SrcY : ℚ
  ColorR : ℚ
  ColorG : ℚ
  ColorB : ℚ
  ColorA : ℚ

/-- Modelled from the spec: the options of a draw call, up to four source images and
the uniform values by name (the draw calls are missing). -/
structure DrawOptions where
  Images : Fin 4 → Option Image
  Uniforms : String → Option UniformValue

/-- Modelled from the spec: the options used for a `nil` argument (the draw calls are
missing). -/
def DrawOptions.nil : DrawOptions := ⟨fun _ => none, fun _ => none⟩

/-- Modelled from the spec: edge function of the directed edge `a → b` at `p`, positive
on the inner side of a clockwise triangle in a y-down frame (the rasterizer is missing). -/
def edge (a b p : ℚ × ℚ) : ℚ := (b.1 - a.1) * (p.2 - a.2) - (b.2 - a.2) * (p.1 - a.1)

/-- Modelled from the spec: the top-left fill rule; of a clockwise triangle an edge is a
top edge when horizontal and running right, a left edge when running up (the rasterizer
is missing). -/
def topLeft (a b : ℚ × ℚ) : Bool := decide ((b.2 = a.2 ∧ a.1 < b.1) ∨ b.2 < a.2)

/-- Modelled from the spec: a sample point is on the inner side of an edge, points on
the edge counting for top and left edges only (the rasterizer is missing). -/
def insideEdge (a b p : ℚ × ℚ) : Bool :=
  decide (0 < edge a b p) || (decide (edge a b p = 0) && topLeft a b)

/-- Modelled from the spec: coverage of a sample point by a triangle of either winding;
a triangle without area covers nothing (the rasterizer is missing). -/
def covers (a b c p : ℚ × ℚ) : Bool :=
  if 0 < edge a b c then insideEdge a b p && insideEdge b c p && insideEdge c a p
  else if edge a b c < 0 then insideEdge a c p && insideEdge c b p && insideEdge b a p
  else false

/-- Modelled from the spec: barycentric interpolation of a vertex attribute
(the rasterizer is missing). -/
def interpolate (a b c p : ℚ × ℚ) (fa fb fc : ℚ) : ℚ :=
  (edge b c p * fa + edge c a p * fb + edge a b p * fc) / edge a b c

/-- Modelled from the spec: source-over composition of a premultiplied fragment colour
onto a destination colour (the graphics backend is missing). -/
def blend (src dst : vec4) : vec4 :=
  ⟨src.x + dst.x * (1 - src.w), src.y + dst.y * (1 - src.w),
   src.z + dst.z * (1 - src.w), src.w + dst.w * (1 - src.w)⟩

/-- Modelled from the spec: rasterization of one triangle into the destination; every
pixel whose centre is covered receives the blended value of `Fragment` (the rasterizer
is missing). -/
def drawTriangle (s : Shader) (buf : List ℚ) (images : Fin 4 → Option Image) (dst : Image)
    (va vb vc : Vertex) : Image :=
  { dst with pix := fun i j =>
      let a : ℚ × ℚ := (va.DstX, va.DstY)
      let b : ℚ × ℚ := (vb.DstX, vb.DstY)
      let c : ℚ × ℚ := (vc.DstX, vc.DstY)
      let p : ℚ × ℚ := ((i : ℚ) + 1 / 2, (j : ℚ) + 1 / 2)
      if i < dst.width ∧ j < dst.height ∧ covers a b c p = true then
        let texCoord : vec2 :=
          ⟨interpolate a b c p va.SrcX vb.SrcX vc.SrcX, interpolate a b c p va.SrcY vb.SrcY vc.SrcY⟩
        let color : vec4 :=
          ⟨interpolate a b c p va.ColorR vb.ColorR vc.ColorR,
           interpolate a b c p va.ColorG vb.ColorG vc.ColorG,
           interpolate a b c p va.ColorB vb.ColorB vc.ColorB,
           interpolate a b c p va.ColorA vb.ColorA vc.ColorA⟩
        toRGBA (blend (s.Fragment buf images ⟨p.1, p.2, 0, 1⟩ texCoord color)
          (ofRGBA (dst.pix i j)))
      else dst.pix i j }

/-- Modelled from the spec: the triangles of an index sequence drawn in order
(the rasterizer is missing). -/
def drawTriangles (s : Shader) (buf : List ℚ) (images : Fin 4 → Option Image)
    (vertices : List Vertex) : List Nat → Image → Image
  | ia :: ib :: ic :: rest, dst =>
    match vertices[ia]?, vertices[ib]?, vertices[ic]? with
    | some va, some vb, some vc =>
      drawTriangles s buf images vertices rest (drawTriangle s buf images dst va vb vc)
    | _, _, _ => drawTriangles s buf images vertices rest dst
  | _, dst => dst

/-- Modelled from the spec: whether the destination is one of the bound source images
of the draw call (the draw calls are missing). -/
def boundAsSource (dst : Image) (options : DrawOptions) : Bool :=
  (List.finRange 4).any fun k =>
    match options.Images k with
    | some img => decide (img.id = dst.id)
    | none => false

/-- Modelled from the spec: `DrawTrianglesShader(vertices, indices, shader, options)`;
a destination bound as its own source is rejected, the uniforms are bound, the indices
must point to supplied vertices, then the triangles are rasterized (the draw calls are
missing). -/
def DrawTrianglesShader (dst : Image) (vertices : List Vertex) (indices : List Nat)
    (shader : Shader) (options : DrawOptions) : Except DrawError Image :=
  if boundAsSource dst options = true then .error .SelfDrawError
  else
    match bindUniforms shader.uniforms options.Uniforms with
    | .error e => .error e
    | .ok buf =>
      if indices.all (fun i => decide (i < vertices.length)) = true then
        .ok (drawTriangles shader buf options.Images vertices indices dst)
      else .error .IndexOutOfRangeError

/-- Modelled from the spec: `DrawRectShader(w, h, shader, options)`, a quad of four
vertices and six indices over `[0,w) × [0,h)`, source coordinates offset by the origin
of the first bound image, full-intensity vertex colours, delegated to
`DrawTrianglesShader` (the draw calls are missing). -/
def DrawRectShader (dst : Image) (w h : Nat) (shader : Shader) (options : DrawOptions) :
    Except DrawError Image :=
  let ox : ℚ := match options.Images 0 with
    | some img => img.originX
    | none => 0
  let oy : ℚ := match options.Images 0 with
    | some img => img.originY
    | none => 0
  DrawTrianglesShader dst
    [⟨0, 0, ox, oy, 1, 1, 1, 1⟩, ⟨w, 0, ox + w, oy, 1, 1, 1, 1⟩,
     ⟨0, h, ox, oy + h, 1, 1, 1, 1⟩, ⟨w, h, ox + w, oy + h, 1, 1, 1, 1⟩]
    [0, 1, 2, 1, 2, 3] shader options

/-! ## The shaders of `shader_test.go` -/

/-- The shader of `TestShaderFill`, `TestShaderFillWithDrawImage` and
`TestShaderFillWithDrawTriangles` for the colour `c`: no uniforms, `Fragment` returns `c`. -/
def constShader (c : vec4) : Shader := ⟨[], fun _ _ _ _ _ => c⟩

/-- The shader of `TestShaderFuncMod`. -/
def modShader : Shader := ⟨[], fun _ _ _ _ _ => ⟨mod (-1 / 4) 1, 0, 0, 1⟩⟩

/-- The matrix `a` of `TestShaderMatrix`, column by column. -/
def matrixA : mat4 :=
  ⟨⟨1 / 8, 1 / 16, 1 / 16, 1 / 16⟩, ⟨1 / 4, 1 / 4, 1 / 16, 3 / 16⟩,
   ⟨3 / 16, 1 / 8, 1 / 4, 1 / 4⟩, ⟨1 / 16, 3 / 16, 1 / 8, 1 / 4⟩⟩

/-- The matrix `b` of `TestShaderMatrix`, column by column. -/
def matrixB : mat4 :=
  ⟨⟨1 / 16, 1 / 8, 1 / 16, 1 / 8⟩, ⟨1 / 8, 3 / 16, 1 / 4, 1 / 16⟩,
   ⟨1 / 8, 1 / 8, 3 / 16, 3 / 16⟩, ⟨1 / 4, 1 / 16, 1 / 8, 1 / 16⟩⟩

/-- The shader of `TestShaderMatrix`: `vec4((a * b * vec4(1, 1, 1, 1)).xyz, 1)`. -/
def matrixShader : Shader :=
  ⟨[], fun _ _ _ _ _ =>
    ⟨((matrixA.mul matrixB).mulVec ⟨1, 1, 1, 1⟩).x, ((matrixA.mul matrixB).mulVec ⟨1, 1, 1, 1⟩).y,
     ((matrixA.mul matrixB).mulVec ⟨1, 1, 1, 1⟩).z, 1⟩⟩

/-- The shaders "float array" and "float one-element array" of
`TestShaderUniformFirstElement`: `var C [n]float`, `Fragment` returns
`vec4(C[0], 1, 1, 1)`. -/
def floatArrayShader (n : Nat) : Shader :=
  ⟨[⟨"C", .array n .float⟩],
   fun buf _ _ _ _ => ⟨floatArrayAt [⟨"C", .array n .float⟩] buf "C" 0, 1, 1, 1⟩⟩

/-- The shader "matrix array" of `TestShaderUniformFirstElement`: `var C [n]mat2`,
`Fragment` returns `vec4(C[0][0][0], 1, 1, 1)`. -/
def matArrayShader (n : Nat) : Shader :=
  ⟨[⟨"C", .array n (.mat 2)⟩],
   fun buf _ _ _ _ => ⟨matArrayAt [⟨"C", .array n (.mat 2)⟩] buf "C" 2 0 0 0, 1, 1, 1⟩⟩

/-- Modelled from the spec: two colours agree within the tolerance `delta` on every
channel, the helper `sameColors` of the tests (its source file is missing). -/
def sameColors (c1 c2 : RGBA) (delta : Nat) : Bool :=
  decide (c1.R ≤ c2.R + delta ∧ c2.R ≤ c1.R + delta ∧ c1.G ≤ c2.G + delta ∧ c2.G ≤ c1.G + delta ∧
    c1.B ≤ c2.B + delta ∧ c2.B ≤ c1.B + delta ∧ c1.A ≤ c2.A + delta ∧ c2.A ≤ c1.A + delta)

/-- The uniform map `{"C": fs}` of `TestShaderUniformFirstElement`. -/
def uniformsC (fs : List ℚ) : String → Option UniformValue :=
  fun name => if name = "C" then some (.FloatSlice fs) else none

end Ebiten

/-! # Theorems -/

namespace Gamepad

theorem rneShift_ge (n s : Nat) : n / 2 ^ s ≤ rneShift n s := by
  unfold rneShift
  dsimp only
  split <;> omega

theorem rneShift_le (n s : Nat) : rneShift n s ≤ n / 2 ^ s + 1 := by
  unfold rneShift
  dsimp only
  split <;> omega

theorem rneShift_mono (s n m : Nat) (h : n ≤ m) : rneShift n s ≤ rneShift m s := by
  have hq : n / 2 ^ s ≤ m / 2 ^ s := Nat.div_le_div_right h
  rcases Nat.lt_or_ge (n / 2 ^ s) (m / 2 ^ s) with hlt | hge
  · exact le_trans (rneShift_le n s) (le_trans hlt (rneShift_ge m s))
  · have heq : n / 2 ^ s = m / 2 ^ s := le_antisymm hq hge
    have hn := Nat.div_add_mod n (2 ^ s)
    have hm := Nat.div_add_mod m (2 ^ s)
    rw [heq] at hn
    have hr : n % 2 ^ s ≤ m % 2 ^ s := by omega
    unfold rneShift
    dsimp only
    rw [heq]
    split
    · rename_i hup
      rw [if_pos]
      rcases hup with h1 | ⟨h1, h2⟩
      · left; omega
      · rcases Nat.lt_or_ge (2 ^ s) (2 * (m % 2 ^ s)) with h3 | h3
        · left; exact h3
        · right; exact ⟨by omega, h2⟩
    · split <;> omega

theorem rneShift_exact (k s : Nat) : rneShift (k * 2 ^ s) s = k := by
  have hp : 0 < 2 ^ s := Nat.pow_pos (by norm_num)
  unfold rneShift
  dsimp only
  rw [Nat.mul_div_cancel _ hp, Nat.mul_mod_left]
  rw [if_neg]
  omega

theorem excessBits_mono (n m : Nat) (h : n ≤ m) : excessBits n ≤ excessBits m := by
  unfold excessBits
  rcases Nat.eq_zero_or_pos n with h0 | h0
  · subst h0
    have : Nat.log2 0 = 0 := by simp [Nat.log2]
    omega
  · have h1 : Nat.log2 n < Nat.log2 m + 1 :=
      (Nat.log2_lt (by omega)).2 (lt_of_le_of_lt h Nat.lt_log2_self)
    omega

theorem lt_pow_excessBits (n : Nat) : n < 2 ^ (53 + excessBits n) := by
  have h1 : n < 2 ^ (Nat.log2 n + 1) := Nat.lt_log2_self
  have h2 : Nat.log2 n + 1 ≤ 53 + excessBits n := by unfold excessBits; omega
  exact lt_of_lt_of_le h1 (Nat.pow_le_pow_right (by norm_num) h2)

theorem pow_le_of_excessBits_pos (n : Nat) (h : 0 < excessBits n) :
    2 ^ (52 + excessBits n) ≤ n := by
  have hn : n ≠ 0 := by
    rintro rfl
    have : Nat.log2 0 = 0 := by simp [Nat.log2]
    unfold excessBits at h
    omega
  have h1 : 2 ^ Nat.log2 n ≤ n := Nat.log2_self_le hn
  have h2 : 52 + excessBits n = Nat.log2 n := by unfold excessBits at h ⊢; omega
  rw [h2]
  exact h1

theorem round53_mono (n m : Nat) (h : n ≤ m) : round53 n ≤ round53 m := by
  unfold round53
  rcases Nat.lt_or_ge (excessBits n) (excessBits m) with hlt | hge
  · -- the binade of `m` lies above the one of `n`
    have hp1 : 0 < 2 ^ excessBits n := Nat.pow_pos (by norm_num)
    have hp2 : 0 < 2 ^ excessBits m := Nat.pow_pos (by norm_num)
    have hq1 : n / 2 ^ excessBits n < 2 ^ 53 := by
      rw [Nat.div_lt_iff_lt_mul hp1, ← Nat.pow_add]
      exact lt_pow_excessBits n
    have hq2 : 2 ^ 52 ≤ m / 2 ^ excessBits m := by
      rw [Nat.le_div_iff_mul_le hp2, ← Nat.pow_add]
      exact pow_le_of_excessBits_pos m (by omega)
    calc rneShift n (excessBits n) * 2 ^ excessBits n
        ≤ 2 ^ 53 * 2 ^ excessBits n :=
          Nat.mul_le_mul_right _ (le_trans (rneShift_le _ _) hq1)
      _ = 2 ^ (53 + excessBits n) := (Nat.pow_add _ _ _).symm
      _ ≤ 2 ^ (52 + excessBits m) := Nat.pow_le_pow_right (by norm_num) (by omega)
      _ = 2 ^ 52 * 2 ^ excessBits m := Nat.pow_add _ _ _
      _ ≤ rneShift m (excessBits m) * 2 ^ excessBits m :=
          Nat.mul_le_mul_right _ (le_trans hq2 (rneShift_ge _ _))
  · have heq : excessBits n = excessBits m := le_antisymm (excessBits_mono n m h) hge
    rw [heq]
    exact Nat.mul_le_mul_right _ (rneShift_mono _ n m h)

theorem round53_exact (k t : Nat) (hk : k < 2 ^ 53) : round53 (k * 2 ^ t) = k * 2 ^ t := by
  unfold round53
  rcases Nat.eq_zero_or_pos (excessBits (k * 2 ^ t)) with h0 | hpos
  · rw [h0]
    have := rneShift_exact (k * 2 ^ t) 0
    simp only [pow_zero, mul_one] at this ⊢
    exact this
  · -- the excess is at most `t`, so the low bits dropped are zero
    have hle : excessBits (k * 2 ^ t) ≤ t := by
      by_contra hgt
      have h1 := pow_le_of_excessBits_pos (k * 2 ^ t) hpos
      have h2 : k * 2 ^ t < 2 ^ 53 * 2 ^ t :=
        Nat.mul_lt_mul_of_pos_right hk (Nat.pow_pos (by norm_num))
      rw [← Nat.pow_add] at h2
      have h3 : 2 ^ (53 + t) ≤ 2 ^ (52 + excessBits (k * 2 ^ t)) :=
        Nat.pow_le_pow_right (by norm_num) (by omega)
      omega
    obtain ⟨u, hu⟩ : ∃ u, t = u + excessBits (k * 2 ^ t) := ⟨t - excessBits (k * 2 ^ t), by omega⟩
    have hsplit : k * 2 ^ t = (k * 2 ^ u) * 2 ^ excessBits (k * 2 ^ t) := by
      conv_lhs => rw [hu, Nat.pow_add, ← Nat.mul_assoc]
    generalize excessBits (k * 2 ^ t) = e at hsplit ⊢
    rw [hsplit, rneShift_exact]


theorem crcStep_lt (c : Nat) (h : c < 2 ^ 32) : crcStep c < 2 ^ 32 := by
  unfold crcStep
  split
  · exact Nat.xor_lt_two_pow (by omega) (by norm_num)
  · omega

theorem crcStep_iterate_lt (k c : Nat) (h : c < 2 ^ 32) : crcStep^[k] c < 2 ^ 32 := by
  induction k generalizing c with
  | zero => simpa using h
  | succ k ih => rw [Function.iterate_succ_apply]; exact ih _ (crcStep_lt c h)

theorem crcByte_lt (c b : Nat) (hc : c < 2 ^ 32) (hb : b < 256) : crcByte c b < 2 ^ 32 :=
  crcStep_iterate_lt 8 _ (Nat.xor_lt_two_pow hc (by omega))

theorem foldl_crcByte_lt (data : List Nat) (c : Nat) (hc : c < 2 ^ 32)
    (h : ∀ b ∈ data, b < 256) : data.foldl crcByte c < 2 ^ 32 := by
  induction data generalizing c with
  | nil => simpa using hc
  | cons b bs ih =>
    rw [List.foldl_cons]
    exact ih _ (crcByte_lt c b hc (h b (by simp))) (fun x hx => h x (by simp [hx]))

theorem ChecksumIEEE_lt (data : List Nat) (h : ∀ b ∈ data, b < 256) :
    ChecksumIEEE data < 2 ^ 32 :=
  Nat.xor_lt_two_pow (foldl_crcByte_lt data _ (by norm_num) h) (by norm_num)

theorem set4_eq (report : List Nat) (a b c d : Nat) (h : 4 ≤ report.length) :
    (((report.set (report.length - 4) a).set (report.length - 3) b).set
      (report.length - 2) c).set (report.length - 1) d
      = report.take (report.length - 4) ++ [a, b, c, d] := by
  apply List.ext_getElem?
  intro i
  simp only [List.getElem?_set, List.length_set, List.getElem?_append, List.getElem?_take, List.length_take]
  have hmin : min (report.length - 4) report.length = report.length - 4 := by omega
  rw [hmin]
  by_cases h1 : i < report.length - 4
  · have e1 : ¬ (report.length - 1 = i) := by omega
    have e2 : ¬ (report.length - 2 = i) := by omega
    have e3 : ¬ (report.length - 3 = i) := by omega
    have e4 : ¬ (report.length - 4 = i) := by omega
    simp [e1, e2, e3, e4, h1]
  · rcases (show i = report.length - 4 ∨ i = report.length - 3 ∨ i = report.length - 2 ∨
        i = report.length - 1 ∨ report.length ≤ i by omega) with e | e | e | e | e
    · have e1 : ¬ (report.length - 1 = i) := by omega
      have e2 : ¬ (report.length - 2 = i) := by omega
      have e3 : ¬ (report.length - 3 = i) := by omega
      have e4 : (report.length - 4 = i) := by omega
      have e5 : i < report.length := by omega
      have e6 : i - (report.length - 4) = 0 := by omega
      simp [e1, e2, e3, e4, h1, e5, e6]
    · have e1 : ¬ (report.length - 1 = i) := by omega
      have e2 : ¬ (report.length - 2 = i) := by omega
      have e3 : (report.length - 3 = i) := by omega
      have e5 : i < report.length := by omega
      have e6 : i - (report.length - 4) = 1 := by omega
      simp [e1, e2, e3, h1, e5, e6]
    · have e1 : ¬ (report.length - 1 = i) := by omega
      have e2 : (report.length - 2 = i) := by omega
      have e5 : i < report.length := by omega
      have e6 : i - (report.length - 4) = 2 := by omega
      simp [e1, e2, h1, e5, e6]
    · have e1 : (report.length - 1 = i) := by omega
      have e5 : i < report.length := by omega
      have e6 : i - (report.length - 4) = 3 := by omega
      simp [e1, h1, e5, e6]
    · have e1 : ¬ (report.length - 1 = i) := by omega
      have e2 : ¬ (report.length - 2 = i) := by omega
      have e3 : ¬ (report.length - 3 = i) := by omega
      have e4 : ¬ (report.length - 4 = i) := by omega
      have e6 : 4 ≤ i - (report.length - 4) := by omega
      have e7 : report[i]? = none := List.getElem?_eq_none (by omega)
      obtain ⟨k, hk⟩ : ∃ k, i - (report.length - 4) = k + 4 := ⟨i - (report.length - 4) - 4, by omega⟩
      simp [e1, e2, e3, e4, h1, e7, hk]


theorem toByte_lt (oor : Float64 → Nat) (x : Float64) : toByte oor x < 256 := by
  unfold toByte
  split
  · dsimp only
    split
    · omega
    · split
      · omega
      · exact Nat.mod_lt _ (by norm_num)
  · exact Nat.mod_lt _ (by norm_num)

theorem bytes_set (l : List Nat) (i v : Nat) (h : ∀ b ∈ l, b < 256) (hv : v < 256) :
    ∀ b ∈ l.set i v, b < 256 := by
  intro b hb
  rcases List.mem_or_eq_of_mem_set hb with h1 | h1
  · exact h b h1
  · omega

theorem bytes_replicate (k : Nat) : ∀ b ∈ List.replicate k 0, b < 256 := by
  intro b hb
  rw [List.eq_of_mem_replicate hb]
  norm_num

theorem computeDS4checksum_some (report : List Nat) (hb : ∀ b ∈ report, b < 256)
    (h : 4 ≤ report.length) :
    computeDS4checksum report = some (report.take (report.length - 4) ++
      [ChecksumIEEE (0xa2 :: report.take (report.length - 4)) % 256,
       ChecksumIEEE (0xa2 :: report.take (report.length - 4)) / 2 ^ 8 % 256,
       ChecksumIEEE (0xa2 :: report.take (report.length - 4)) / 2 ^ 16 % 256,
       ChecksumIEEE (0xa2 :: report.take (report.length - 4)) / 2 ^ 24]) := by
  have hlt : ChecksumIEEE (0xa2 :: report.take (report.length - 4)) < 2 ^ 32 := by
    apply ChecksumIEEE_lt
    intro b hb1
    rcases List.mem_cons.1 hb1 with h1 | h1
    · omega
    · exact hb b (List.mem_of_mem_take h1)
  unfold computeDS4checksum
  rw [if_neg (by omega)]
  simp only [List.singleton_append, List.length_set]
  rw [set4_eq report _ _ _ _ h]
  have e0 : ∀ c : Nat, c &&& 0xff = c % 256 := fun c => Nat.and_pow_two_sub_one_eq_mod c 8
  simp only [e0, Nat.shiftRight_eq_div_pow]
  have : ChecksumIEEE (0xa2 :: report.take (report.length - 4)) / 2 ^ 24 % 256
      = ChecksumIEEE (0xa2 :: report.take (report.length - 4)) / 2 ^ 24 := by
    apply Nat.mod_eq_of_lt
    omega
  rw [this]


theorem one64_pos : 0 < one64 := Nat.pow_pos (by norm_num)

theorem rneShift_zero (s : Nat) : rneShift 0 s = 0 := by
  have h : 0 < 2 ^ s := Nat.pow_pos (by norm_num)
  simp [rneShift]

theorem mulConst_zero (c : Nat) : Float64.zero.mulConst c = Float64.zero := by
  simp [Float64.mulConst, Float64.zero, roundToFloat64, round53, rneShift_zero]

theorem Round_zero : Round Float64.zero = Float64.zero := by
  have h := one64_pos
  simp only [Round, Float64.zero, Nat.zero_add]
  rw [Nat.div_eq_of_lt (Nat.div_lt_self h (by norm_num)), Nat.zero_mul]

theorem motorByte_zero (oor : Float64 → Nat) :
    rumbleByte oor Float64.zero = 0 := by
  rw [rumbleByte, mulConst_zero, Round_zero]
  simp [toByte, Float64.zero]

theorem usbReport_length (oor : Float64 → Nat) (st w : Float64) :
    (usbReport oor st w).length = 32 := by
  simp [usbReport]

theorem usbReport_eq (oor : Float64 → Nat) (st w : Float64) :
    usbReport oor st w = [kReportId05, 0x01, 0, 0,
      rumbleByte oor w,
      rumbleByte oor st] ++ List.replicate 26 0 := by
  simp [usbReport, List.replicate]


/-- The report before the checksum is written by `vibrateBluetooth`. -/
theorem bluetoothReport_eq (oor : Float64 → Nat) (st w : Float64) :
    bluetoothReport oor st w = computeDS4checksum
      ([kReportId11, 0xc0, 0x20, 0xf1, 0x04, 0,
        rumbleByte oor w,
        rumbleByte oor st] ++ List.replicate 13 0 ++
        [0x43, 0x43, 0, 0x4d, 0x85] ++ List.replicate 52 0) := by
  simp [bluetoothReport, List.replicate]

theorem bluetoothReport_some (oor : Float64 → Nat) (st w : Float64) :
    ∃ r, bluetoothReport oor st w = some r ∧ r.length = 78 ∧
      r.take 8 = [kReportId11, 0xc0, 0x20, 0xf1, 0x04, 0,
        rumbleByte oor w,
        rumbleByte oor st] ∧
      r.drop 74 = [ChecksumIEEE (0xa2 :: r.take 74) % 256,
        ChecksumIEEE (0xa2 :: r.take 74) / 2 ^ 8 % 256,
        ChecksumIEEE (0xa2 :: r.take 74) / 2 ^ 16 % 256,
        ChecksumIEEE (0xa2 :: r.take 74) / 2 ^ 24] := by
  rw [bluetoothReport_eq]
  have hw : rumbleByte oor w < 256 := toByte_lt oor _
  have hs : rumbleByte oor st < 256 := toByte_lt oor _
  generalize rumbleByte oor w = bw at hw ⊢
  generalize rumbleByte oor st = bs at hs ⊢
  rw [computeDS4checksum_some _ _ (by simp)]
  · refine ⟨_, rfl, by simp, by simp [List.replicate], ?_⟩
    simp [List.replicate]
  · intro b hb
    simp [kReportId11] at hb
    omega


theorem round53_error (n : Nat) :
    2 ^ 53 * (round53 n - n) ≤ n ∧ 2 ^ 53 * (n - round53 n) ≤ n := by
  unfold round53
  rcases Nat.eq_zero_or_pos (excessBits n) with h0 | hpos
  · rw [h0]
    have := rneShift_exact n 0
    simp only [pow_zero, mul_one] at this ⊢
    rw [this]
    simp
  · have hn := pow_le_of_excessBits_pos n hpos
    have hdm := Nat.div_add_mod n (2 ^ excessBits n)
    have hr := Nat.mod_lt n (Nat.pow_pos (by norm_num : 0 < 2) : 0 < 2 ^ excessBits n)
    rw [Nat.pow_add] at hn
    unfold rneShift
    dsimp only
    generalize 2 ^ excessBits n = P at hn hdm hr ⊢
    generalize hq : n / P = q at hdm ⊢
    generalize n % P = r at hdm hr ⊢
    rw [Nat.mul_comm] at hdm
    split
    · rw [Nat.add_mul]
      generalize q * P = X at hdm ⊢
      omega
    · generalize q * P = X at hdm ⊢
      omega

theorem unit_cases (x : Float64)
    (h : Float64.zero.le x = true ∧ x.le Float64.one = true) :
    ∃ neg n, x = Float64.fin neg n ∧ n ≤ one64 ∧ (neg = true → n = 0) := by
  obtain ⟨h0, h1⟩ := h
  cases x with
  | nan => simp [Float64.le, Float64.zero] at h0
  | inf neg => cases neg <;> simp [Float64.le, Float64.zero, Float64.one] at h0 h1
  | fin neg n =>
    cases neg
    · simp [Float64.le, Float64.zero, Float64.one] at h1
      exact ⟨false, n, rfl, h1, by simp⟩
    · simp [Float64.le, Float64.zero, Float64.one] at h0
      exact ⟨true, n, rfl, by omega, fun _ => h0⟩

theorem unit_le (n m : Nat) (a b : Bool) (ha : a = true → n = 0) (hb : b = true → m = 0)
    (h : (Float64.fin a n).le (Float64.fin b m) = true) : n ≤ m := by
  cases a <;> cases b <;> simp [Float64.le] at h
  · exact h
  · rw [h.1]; exact Nat.zero_le _
  · rw [ha rfl]; exact Nat.zero_le _
  · rw [ha rfl]; exact Nat.zero_le _

theorem round53_max : round53 (one64 * 255) = one64 * 255 := by
  unfold one64
  rw [Nat.mul_comm]
  exact round53_exact 255 fracBits (by norm_num)

/-- The product `n · 255` of a magnitude in `[0, 1]` rounds to a finite float64. -/
theorem mulConst_unit (neg : Bool) (n : Nat) (h : n ≤ one64) :
    (Float64.fin neg n).mulConst kRumbleMagnitudeMax = Float64.fin neg (round53 (n * 255)) ∧
    round53 (n * 255) ≤ one64 * 255 := by
  have hle : round53 (n * 255) ≤ one64 * 255 := by
    rw [← round53_max]
    exact round53_mono _ _ (Nat.mul_le_mul_right _ h)
  refine ⟨?_, hle⟩
  have hlt : round53 (n * 255) < 2 ^ (maxExp + fracBits) := by
    have h0 : 2 ^ 8 ≤ 2 ^ maxExp := Nat.pow_le_pow_right (by norm_num) (by decide)
    have h1 : one64 * 255 < 2 ^ fracBits * 2 ^ maxExp := by
      unfold one64
      apply Nat.mul_lt_mul_of_pos_left _ (Nat.pow_pos (by norm_num))
      have : 255 < 2 ^ 8 := by norm_num
      omega
    rw [Nat.pow_add, Nat.mul_comm (2 ^ maxExp)]
    omega
  simp only [Float64.mulConst, roundToFloat64, kRumbleMagnitudeMax]
  rw [if_pos hlt]

theorem rumbleByte_unit (oor : Float64 → Nat) (neg : Bool) (n : Nat) (h : n ≤ one64)
    (hneg : neg = true → n = 0) :
    rumbleByte oor (Float64.fin neg n) = (round53 (n * 255) + one64 / 2) / one64 ∧
    (round53 (n * 255) + one64 / 2) / one64 ≤ 255 := by
  obtain ⟨hm, hp⟩ := mulConst_unit neg n h
  have h1 := one64_pos
  have hk : (round53 (n * 255) + one64 / 2) / one64 ≤ 255 := by
    rw [← Nat.lt_succ_iff, Nat.div_lt_iff_lt_mul h1]
    have : one64 / 2 < one64 := Nat.div_lt_self h1 (by norm_num)
    omega
  refine ⟨?_, hk⟩
  rw [rumbleByte, hm]
  simp only [Round, toByte]
  rw [Nat.mul_div_cancel _ h1]
  by_cases hz : (round53 (n * 255) + one64 / 2) / one64 = 0
  · rw [if_pos hz, hz]
  · rw [if_neg hz]
    cases neg
    · rw [if_pos ⟨rfl, hk⟩]
    · exfalso
      apply hz
      rw [hneg rfl]
      have : round53 (0 * 255) = 0 := by simp [round53, rneShift_zero]
      rw [this, Nat.zero_add]
      exact Nat.div_eq_of_lt (Nat.div_lt_self h1 (by norm_num))


theorem two_mul_pow_succ_half (k : Nat) : 2 * (2 ^ (k + 1) / 2) = 2 ^ (k + 1) := by
  rw [Nat.pow_succ, Nat.mul_div_cancel _ (by norm_num : 0 < 2), Nat.mul_comm]

theorem one64_even : 2 * (one64 / 2) = one64 := by
  have h : fracBits = 1073 + 1 := rfl
  unfold one64
  rw [h]
  exact two_mul_pow_succ_half 1073

theorem unit_zero : Float64.zero.le Float64.zero = true ∧ Float64.zero.le Float64.one = true := by
  simp [Float64.le, Float64.zero, Float64.one]

theorem unit_one : Float64.zero.le Float64.one = true ∧ Float64.one.le Float64.one = true := by
  simp [Float64.le, Float64.zero, Float64.one]

theorem rumbleByte_one (oor : Float64 → Nat) : rumbleByte oor Float64.one = 255 := by
  obtain ⟨h1, -⟩ := rumbleByte_unit oor false one64 (le_refl _) (by simp)
  have h2 := one64_pos
  have h3 : one64 / 2 < one64 := Nat.div_lt_self h2 (by norm_num)
  unfold Float64.one
  rw [h1, round53_max]
  apply Nat.div_eq_of_lt_le <;> omega

/-- C4: for magnitudes `x` (strong) and `y` (weak) in `[0, 1]` the USB report has 32 bytes
with the weak motor byte at index 4 and the strong one at index 5, the Bluetooth report has
78 bytes with them at indices 6 and 7. A motor byte is the float64 product `magnitude * 255`
(correctly rounded, relative error at most `2^-53`) rounded to the nearest integer with
halves away from zero; it is at most 255, so the conversion to `byte` never wraps; it is 0
for magnitude `±0`, 255 for magnitude 1, and non-decreasing in the magnitude. -/
theorem rumbleByte_rounds (oor : Float64 → Nat) (x y : Float64)
    (hx : Float64.zero.le x = true ∧ x.le Float64.one = true)
    (hy : Float64.zero.le y = true ∧ y.le Float64.one = true) :
    ((usbReport oor x y).length = 32 ∧ (usbReport oor x y)[4]? = some (rumbleByte oor y) ∧
      (usbReport oor x y)[5]? = some (rumbleByte oor x)) ∧
    (∃ r, bluetoothReport oor x y = some r ∧ r.length = 78 ∧
      r[6]? = some (rumbleByte oor y) ∧ r[7]? = some (rumbleByte oor x)) ∧
    (∃ neg n p, x = Float64.fin neg n ∧
      x.mulConst kRumbleMagnitudeMax = Float64.fin neg p ∧
      2 ^ 53 * (p - n * 255) ≤ n * 255 ∧ 2 ^ 53 * (n * 255 - p) ≤ n * 255 ∧
      2 * rumbleByte oor x * one64 ≤ 2 * p + one64 ∧
      2 * p + one64 < 2 * (rumbleByte oor x + 1) * one64 ∧
      rumbleByte oor x ≤ 255) ∧
    rumbleByte oor (Float64.fin false 0) = 0 ∧ rumbleByte oor (Float64.fin true 0) = 0 ∧
    rumbleByte oor Float64.one = 255 ∧
    (x.le y = true → rumbleByte oor x ≤ rumbleByte oor y) := by
  obtain ⟨a, n, rfl, hn, ha⟩ := unit_cases x hx
  obtain ⟨b, m, rfl, hm, hb⟩ := unit_cases y hy
  obtain ⟨hbx, hx255⟩ := rumbleByte_unit oor a n hn ha
  obtain ⟨hby, -⟩ := rumbleByte_unit oor b m hm hb
  have hU := one64_pos
  have hz : ∀ c : Bool, rumbleByte oor (Float64.fin c 0) = 0 := by
    intro c
    obtain ⟨h1, -⟩ := rumbleByte_unit oor c 0 (Nat.zero_le _) (fun _ => rfl)
    have : round53 (0 * 255) = 0 := by simp [round53, rneShift_zero]
    rw [h1, this, Nat.zero_add]
    exact Nat.div_eq_of_lt (Nat.div_lt_self hU (by norm_num))
  refine ⟨?_, ?_, ?_, hz false, hz true, rumbleByte_one oor, ?_⟩
  · rw [usbReport_eq]
    simp
  · obtain ⟨r, h1, h2, h3, -⟩ := bluetoothReport_some oor (Float64.fin a n) (Float64.fin b m)
    have e : ∀ i, i < 8 → r[i]? = (r.take 8)[i]? := by
      intro i hi
      rw [List.getElem?_take_of_lt hi]
    refine ⟨r, h1, h2, ?_, ?_⟩
    · rw [e 6 (by norm_num), h3]; simp
    · rw [e 7 (by norm_num), h3]; simp
  · obtain ⟨hmul, -⟩ := mulConst_unit a n hn
    obtain ⟨e1, e2⟩ := round53_error (n * 255)
    refine ⟨a, n, round53 (n * 255), rfl, hmul, e1, e2, ?_, ?_, by rw [hbx]; exact hx255⟩
    · rw [hbx]
      have h1 := Nat.div_mul_le_self (round53 (n * 255) + one64 / 2) one64
      have h2 := one64_even
      rw [Nat.mul_assoc]
      generalize (round53 (n * 255) + one64 / 2) / one64 * one64 = Q at h1 ⊢
      omega
    · rw [hbx]
      have h1 := @Nat.lt_div_mul_add (round53 (n * 255) + one64 / 2) one64 hU
      have h2 := one64_even
      rw [Nat.mul_assoc, Nat.add_mul, Nat.one_mul]
      generalize (round53 (n * 255) + one64 / 2) / one64 * one64 = Q at h1 ⊢
      omega
  · intro hle
    have hnm : n ≤ m := unit_le n m a b ha hb hle
    rw [hbx, hby]
    exact Nat.div_le_div_right
      (Nat.add_le_add_right (round53_mono _ _ (Nat.mul_le_mul_right _ hnm)) _)

/-- Witness for C4: magnitudes 0 and 1 lie in `[0, 1]`; their motor bytes are ordered. -/
theorem rumbleByte_rounds_witness :
    Float64.zero.le Float64.one = true ∧
    rumbleByte (fun _ => 0) Float64.zero ≤ rumbleByte (fun _ => 0) Float64.one ∧
    rumbleByte (fun _ => 0) Float64.one = 255 := by
  obtain ⟨-, -, -, -, -, h1, h2⟩ :=
    rumbleByte_rounds (fun _ => 0) Float64.zero Float64.one unit_zero unit_one
  exact ⟨unit_one.1, h2 unit_one.1, h1⟩


theorem armTimer_ds4 (s : State) (d : Int) (st w : Float64) :
    (armTimer s d st w).ds4.busType = s.ds4.busType ∧
    (armTimer s d st w).ds4.gamepadId = s.ds4.gamepadId ∧
    (armTimer s d st w).ds4.device = s.ds4.device ∧
    (armTimer s d st w).reports = s.reports := by
  unfold armTimer
  split <;> simp

/-- What `vibrate` does once the timer statement has run. -/
theorem vibrate_eq (hid : HID) (oor : Float64 → Nat) (s : State) (d : Int) (st w : Float64) :
    ∃ r, vibrate hid oor s d st w
        = some { armTimer s d st w with reports := s.reports ++ [r] } ∧
      ((s.ds4.busType = kBusTypeBluetooth ∧ s.ds4.gamepadId ≠ kScufProduct7725 ∧
          bluetoothReport oor st w = some r) ∨
       (¬ (s.ds4.busType = kBusTypeBluetooth ∧ s.ds4.gamepadId ≠ kScufProduct7725) ∧
          r = usbReport oor st w)) := by
  obtain ⟨h1, h2, -, h4⟩ := armTimer_ds4 s d st w
  obtain ⟨r, hr, -⟩ := bluetoothReport_some oor st w
  unfold vibrate
  simp only [h1, h2]
  by_cases hc : s.ds4.busType = kBusTypeBluetooth ∧ s.ds4.gamepadId ≠ kScufProduct7725
  · refine ⟨r, ?_, Or.inl ⟨hc.1, hc.2, hr⟩⟩
    rw [if_pos hc]
    simp [vibrateBluetooth, hr, h4]
  · refine ⟨usbReport oor st w, ?_, Or.inr ⟨hc, rfl⟩⟩
    rw [if_neg hc]
    simp [vibrateUSB, h4]


theorem vibrate_hid_irrelevant (hid hid2 : HID) (oor : Float64 → Nat) (s : State) (d : Int)
    (st w : Float64) : vibrate hid oor s d st w = vibrate hid2 oor s d st w := by
  unfold vibrate
  simp only [vibrateBluetooth, vibrateUSB]
  split
  · cases bluetoothReport oor st w <;> rfl
  · rfl

theorem stopTimer_length (ts : List Timer) (k : Nat) : (stopTimer ts k).length = ts.length := by
  unfold stopTimer
  split <;> simp

theorem stopTimer_getElem? (ts : List Timer) (k j : Nat) (t : Timer) (h : ts[j]? = some t) :
    (stopTimer ts k)[j]? = some (if k = j then { t with stopped := true } else t) := by
  unfold stopTimer
  by_cases hkj : k = j
  · subst hkj
    have hlt : k < ts.length := by
      rcases Nat.lt_or_ge k ts.length with h1 | h1
      · exact h1
      · rw [List.getElem?_eq_none h1] at h; cases h
    simp [h, List.getElem?_set, hlt]
  · rw [if_neg hkj]
    split
    · rw [List.getElem?_set_ne hkj]; exact h
    · exact h

theorem armTimer_idle (s : State) (d : Int) (st w : Float64)
    (h : ¬ (d ≠ 0 ∧ (st.isZero = false ∨ w.isZero = false))) : armTimer s d st w = s := by
  unfold armTimer
  rw [if_neg h]

/-- The timers after the timer statement of `vibrate` has re-armed. -/
theorem armTimer_armed (s : State) (d : Int) (st w : Float64)
    (h : d ≠ 0 ∧ (st.isZero = false ∨ w.isZero = false)) :
    ∃ ts : List Timer, ts.length = s.timers.length ∧
      (∀ k t, s.timers[k]? = some t →
        ts[k]? = some (if s.ds4.timer = some k then { t with stopped := true } else t)) ∧
      (armTimer s d st w).timers = ts ++ [{ d := d, f := (0, Float64.zero, Float64.zero),
                                            stopped := false, fired := false }] ∧
      (armTimer s d st w).ds4 = { s.ds4 with timer := some s.timers.length } := by
  unfold armTimer
  rw [if_pos h]
  cases hs : s.ds4.timer with
  | none => exact ⟨s.timers, rfl, by intro k t hk; simpa using hk, by simp, by simp⟩
  | some j =>
    refine ⟨stopTimer s.timers j, stopTimer_length _ _, ?_, by simp, by simp [stopTimer_length]⟩
    intro k t hk
    rw [stopTimer_getElem? _ _ _ _ hk]
    simp


theorem zero_report_motors (oor : Float64 → Nat) (s : State) (r : List Nat)
    (h : (s.ds4.busType = kBusTypeBluetooth ∧ s.ds4.gamepadId ≠ kScufProduct7725 ∧
          bluetoothReport oor Float64.zero Float64.zero = some r) ∨
       (¬ (s.ds4.busType = kBusTypeBluetooth ∧ s.ds4.gamepadId ≠ kScufProduct7725) ∧
          r = usbReport oor Float64.zero Float64.zero)) :
    (r.length = 32 ∧ r[0]? = some 0x05 ∧ r[4]? = some 0 ∧ r[5]? = some 0) ∨
    (r.length = 78 ∧ r[0]? = some 0x11 ∧ r[6]? = some 0 ∧ r[7]? = some 0) := by
  rcases h with ⟨-, -, hb⟩ | ⟨-, hu⟩
  · right
    obtain ⟨r2, h1, h2, h3, -⟩ := bluetoothReport_some oor Float64.zero Float64.zero
    rw [hb] at h1
    cases h1
    rw [motorByte_zero] at h3
    have e : ∀ i, i < 8 → r[i]? = (r.take 8)[i]? := by
      intro i hi
      rw [List.getElem?_take_of_lt hi]
    refine ⟨h2, ?_, ?_, ?_⟩
    · rw [e 0 (by norm_num), h3]; rfl
    · rw [e 6 (by norm_num), h3]; rfl
    · rw [e 7 (by norm_num), h3]; rfl
  · left
    subst hu
    rw [usbReport_eq, motorByte_zero]
    simp [kReportId05]

/-- C1: a call of `vibrate` with a non-zero duration and a non-zero magnitude stops the
timer that was armed before, arms exactly one new timer with the caller's duration whose
callback is `vibrate(0, 0, 0)`; when that timer fires, one report with both motor bytes
zero is sent and no timer is armed. Every other call leaves the timer field (and all
timers) as they were. -/
theorem vibrate_rearms_timer (hid : HID) (oor : Float64 → Nat) (s : State) (duration : Int)
    (strongMagnitude weakMagnitude : Float64) :
    ∃ s1, vibrate hid oor s duration strongMagnitude weakMagnitude = some s1 ∧
      ((duration ≠ 0 ∧ (strongMagnitude.isZero = false ∨ weakMagnitude.isZero = false)) →
        s1.timers.length = s.timers.length + 1 ∧
        s1.ds4.timer = some s.timers.length ∧
        s1.timers[s.timers.length]? = some (Timer.mk duration (0, Float64.zero, Float64.zero) false false) ∧
        (∀ k t, s.timers[k]? = some t → s1.timers[k]? =
          some (if s.ds4.timer = some k then { t with stopped := true } else t)) ∧
        ∃ s2 r, fire hid oor s1 s.timers.length = some s2 ∧
          s2.reports = s1.reports ++ [r] ∧
          ((r.length = 32 ∧ r[0]? = some 0x05 ∧ r[4]? = some 0 ∧ r[5]? = some 0) ∨
           (r.length = 78 ∧ r[0]? = some 0x11 ∧ r[6]? = some 0 ∧ r[7]? = some 0)) ∧
          s2.ds4 = s1.ds4 ∧
          s2.timers = s1.timers.set s.timers.length (Timer.mk duration (0, Float64.zero, Float64.zero) false true)) ∧
      (¬ (duration ≠ 0 ∧ (strongMagnitude.isZero = false ∨ weakMagnitude.isZero = false)) →
        s1.ds4.timer = s.ds4.timer ∧ s1.timers = s.timers) := by
  obtain ⟨r, hv, -⟩ := vibrate_eq hid oor s duration strongMagnitude weakMagnitude
  by_cases hc : duration ≠ 0 ∧ (strongMagnitude.isZero = false ∨ weakMagnitude.isZero = false)
  · obtain ⟨ts, hlen, hold, htim, hds⟩ :=
      armTimer_armed s duration strongMagnitude weakMagnitude hc
    have hs1 : ({ armTimer s duration strongMagnitude weakMagnitude with
        reports := s.reports ++ [r] } : State) =
        State.mk { s.ds4 with timer := some s.timers.length }
          (ts ++ [Timer.mk duration (0, Float64.zero, Float64.zero) false false])
          (s.reports ++ [r]) := by
      simp [htim, hds]
    rw [hs1] at hv
    have hnew : (ts ++ [Timer.mk duration (0, Float64.zero, Float64.zero) false false])[
        s.timers.length]? = some (Timer.mk duration (0, Float64.zero, Float64.zero) false false) := by
      rw [← hlen]; simp
    refine ⟨_, hv, fun _ => ⟨by simp [hlen], rfl, hnew, ?_, ?_⟩, fun h => absurd hc h⟩
    · intro k t hk
      have hk2 := hold k t hk
      have hlt : k < ts.length := by
        rcases Nat.lt_or_ge k ts.length with h1 | h1
        · exact h1
        · rw [List.getElem?_eq_none h1] at hk2; cases hk2
      show (ts ++ _)[k]? = _
      rw [List.getElem?_append_left hlt]
      exact hk2
    · obtain ⟨r2, hv2, hr2⟩ := vibrate_eq hid oor
        (State.mk { s.ds4 with timer := some s.timers.length }
          ((ts ++ [Timer.mk duration (0, Float64.zero, Float64.zero) false false]).set
            s.timers.length (Timer.mk duration (0, Float64.zero, Float64.zero) false true))
          (s.reports ++ [r])) 0 Float64.zero Float64.zero
      have hidle := armTimer_idle
        (State.mk { s.ds4 with timer := some s.timers.length }
          ((ts ++ [Timer.mk duration (0, Float64.zero, Float64.zero) false false]).set
            s.timers.length (Timer.mk duration (0, Float64.zero, Float64.zero) false true))
          (s.reports ++ [r])) 0 Float64.zero Float64.zero (by simp)
      rw [hidle] at hv2
      refine ⟨State.mk { s.ds4 with timer := some s.timers.length }
          ((ts ++ [Timer.mk duration (0, Float64.zero, Float64.zero) false false]).set
            s.timers.length (Timer.mk duration (0, Float64.zero, Float64.zero) false true))
          (s.reports ++ [r] ++ [r2]), r2, ?_, rfl, zero_report_motors oor _ r2 hr2, rfl, rfl⟩
      simp only [fire, hnew]
      rw [if_neg (by simp)]
      exact hv2
  · rw [armTimer_idle _ _ _ _ hc] at hv
    exact ⟨_, hv, fun h => absurd h hc, fun _ => ⟨rfl, rfl⟩⟩

theorem isZero_fin (neg : Bool) (n : Nat) (h : 0 < n) : (Float64.fin neg n).isZero = false := by
  cases n with
  | zero => omega
  | succ k => rfl

/-- Witness for C1: one second of full strong rumble on a fresh USB pad arms timer 0. -/
theorem vibrate_rearms_timer_witness :
    ∃ s1, vibrate (fun _ _ _ => true) (fun _ => 0)
        { ds4 := { gamepadId := 0x054c05c4, device := 0, busType := "usb", timer := none },
          timers := [], reports := [] } 1000000000 Float64.one Float64.zero = some s1 ∧
      s1.ds4.timer = some 0 ∧ s1.timers.length = 1 := by
  obtain ⟨s1, h1, h2, -⟩ := vibrate_rearms_timer (fun _ _ _ => true) (fun _ => 0)
    { ds4 := { gamepadId := 0x054c05c4, device := 0, busType := "usb", timer := none },
      timers := [], reports := [] } 1000000000 Float64.one Float64.zero
  obtain ⟨h3, h4, -⟩ := h2 ⟨by decide, Or.inl (isZero_fin false one64 one64_pos)⟩
  exact ⟨s1, h1, h4, h3⟩


/-- C3 (as stated, refuted): on a USB pad the write of a one-second full-strength rumble
succeeds with one device and fails with another, `vibrateUSB` reports the difference, yet
`vibrate` ends in the same state both times and has no result: the failure is swallowed. -/
theorem vibrate_swallows_write_failure :
    (vibrateUSB (fun _ _ _ => true) (fun _ => 0)
      (State.mk (dualShock4.mk 0x054c05c4 0 "usb" none) [] [])
      Float64.one Float64.zero).2 = true ∧
    (vibrateUSB (fun _ _ _ => false) (fun _ => 0)
      (State.mk (dualShock4.mk 0x054c05c4 0 "usb" none) [] [])
      Float64.one Float64.zero).2 = false ∧
    vibrate (fun _ _ _ => true) (fun _ => 0)
      (State.mk (dualShock4.mk 0x054c05c4 0 "usb" none) [] [])
      1000000000 Float64.one Float64.zero =
    vibrate (fun _ _ _ => false) (fun _ => 0)
      (State.mk (dualShock4.mk 0x054c05c4 0 "usb" none) [] [])
      1000000000 Float64.one Float64.zero :=
  ⟨rfl, rfl, vibrate_hid_irrelevant _ _ _ _ _ _ _⟩

/-- C3 (amended): `vibrateUSB` and `vibrateBluetooth` return whether the HID write
succeeded, and `vibrate` drops that result: the state it leaves (driver fields, timers,
reports handed to the device) does not depend on the outcome of the write. -/
theorem vibrate_drops_write_result (hid hid2 : HID) (oor : Float64 → Nat) (s : State)
    (duration : Int) (strongMagnitude weakMagnitude : Float64) :
    vibrate hid oor s duration strongMagnitude weakMagnitude
      = vibrate hid2 oor s duration strongMagnitude weakMagnitude ∧
    (vibrateUSB hid oor s strongMagnitude weakMagnitude).2
      = hid s.ds4.device kReportId05 (usbReport oor strongMagnitude weakMagnitude) ∧
    ∃ r, bluetoothReport oor strongMagnitude weakMagnitude = some r ∧
      (vibrateBluetooth hid oor s strongMagnitude weakMagnitude).map Prod.snd
        = some (hid s.ds4.device kReportId11 r) := by
  refine ⟨vibrate_hid_irrelevant _ _ _ _ _ _ _, ?_, ?_⟩
  · simp [vibrateUSB, usbReport_eq]
  · obtain ⟨r, hr, -, h8, -⟩ := bluetoothReport_some oor strongMagnitude weakMagnitude
    refine ⟨r, hr, ?_⟩
    have h0 : r[0]?.getD 0 = kReportId11 := by
      have : r[0]? = (r.take 8)[0]? := by rw [List.getElem?_take_of_lt (by norm_num)]
      rw [this, h8]
      rfl
    simp [vibrateBluetooth, hr, h0]

/-- C9: on a report of at least four bytes `computeDS4checksum` keeps the length and the
first `n-4` bytes and stores the CRC-32 (IEEE) of `0xa2` followed by those bytes in the last
four bytes, least significant byte first; on a shorter report it panics. The 78-byte report
of `vibrateBluetooth` ends in the CRC-32 of `0xa2` followed by its first 74 bytes. -/
theorem computeDS4checksum_crc32 (report : List Nat) (hb : ∀ b ∈ report, b < 256) :
    (report.length < 4 → computeDS4checksum report = none) ∧
    (4 ≤ report.length → ∃ r crc, computeDS4checksum report = some r ∧
      crc = ChecksumIEEE (0xa2 :: report.take (report.length - 4)) ∧
      r.length = report.length ∧
      r.take (report.length - 4) = report.take (report.length - 4) ∧
      r.drop (report.length - 4)
        = [crc % 256, crc / 2 ^ 8 % 256, crc / 2 ^ 16 % 256, crc / 2 ^ 24] ∧
      crc % 256 + 2 ^ 8 * (crc / 2 ^ 8 % 256) + 2 ^ 16 * (crc / 2 ^ 16 % 256)
        + 2 ^ 24 * (crc / 2 ^ 24) = crc) ∧
    (∀ (oor : Float64 → Nat) (strongMagnitude weakMagnitude : Float64),
      ∃ r crc, bluetoothReport oor strongMagnitude weakMagnitude = some r ∧
        r.length = 78 ∧ crc = ChecksumIEEE (0xa2 :: r.take 74) ∧
        r.drop 74 = [crc % 256, crc / 2 ^ 8 % 256, crc / 2 ^ 16 % 256, crc / 2 ^ 24]) := by
  refine ⟨?_, ?_, ?_⟩
  · intro h
    simp [computeDS4checksum, h]
  · intro h
    refine ⟨_, _, computeDS4checksum_some report hb h, rfl, ?_, ?_, ?_, ?_⟩
    · simp; omega
    · have : (report.take (report.length - 4)).length = report.length - 4 := by simp
      rw [List.take_append_eq_append_take, List.take_take]
      simp
    · have : (report.take (report.length - 4)).length = report.length - 4 := by simp
      rw [List.drop_append_eq_append_drop]
      simp
    · omega
  · intro oor st w
    obtain ⟨r, h1, h2, -, h4⟩ := bluetoothReport_some oor st w
    exact ⟨r, _, h1, h2, rfl, h4⟩

/-- Witness for C9: a five-byte report keeps its first byte and gets the CRC-32 of
`[0xa2, 1]`; a three-byte report panics. -/
theorem computeDS4checksum_crc32_witness :
    computeDS4checksum [1, 2, 3] = none ∧
    ∃ r, computeDS4checksum [1, 2, 3, 4, 5] = some r ∧ r.length = 5 ∧ r.take 1 = [1] := by
  obtain ⟨h1, -, -⟩ := computeDS4checksum_crc32 [1, 2, 3] (by decide)
  obtain ⟨-, h2, -⟩ := computeDS4checksum_crc32 [1, 2, 3, 4, 5] (by decide)
  obtain ⟨r, crc, h3, -, h4, h5, -⟩ := h2 (by decide)
  exact ⟨h1 (by decide), r, h3, h4, h5⟩

/-- C10: every call of `vibrate` hands exactly one report to the device. On a Bluetooth
pad that is not the Scuf device 0x2e957725 it is the 78-byte report with id 0x11 ending in
its checksum; in every other case it is the 32-byte report with id 0x05 and byte 1 = 0x01,
all of whose bytes after the motor bytes are zero. -/
theorem vibrate_sends_one_report (hid : HID) (oor : Float64 → Nat) (s : State)
    (duration : Int) (strongMagnitude weakMagnitude : Float64) :
    ∃ s1 r, vibrate hid oor s duration strongMagnitude weakMagnitude = some s1 ∧
      s1.reports = s.reports ++ [r] ∧
      ((s.ds4.busType = "bluetooth" ∧ s.ds4.gamepadId ≠ 0x2e957725 ∧
          bluetoothReport oor strongMagnitude weakMagnitude = some r ∧
          r.length = 78 ∧ r[0]? = some 0x11 ∧
          r.drop 74 = [ChecksumIEEE (0xa2 :: r.take 74) % 256,
            ChecksumIEEE (0xa2 :: r.take 74) / 2 ^ 8 % 256,
            ChecksumIEEE (0xa2 :: r.take 74) / 2 ^ 16 % 256,
            ChecksumIEEE (0xa2 :: r.take 74) / 2 ^ 24]) ∨
       (¬ (s.ds4.busType = "bluetooth" ∧ s.ds4.gamepadId ≠ 0x2e957725) ∧
          r = usbReport oor strongMagnitude weakMagnitude ∧
          r.length = 32 ∧ r[0]? = some 0x05 ∧ r[1]? = some 0x01 ∧
          r.drop 6 = List.replicate 26 0)) := by
  obtain ⟨r, hv, hr⟩ := vibrate_eq hid oor s duration strongMagnitude weakMagnitude
  refine ⟨_, r, hv, rfl, ?_⟩
  rcases hr with ⟨h1, h2, h3⟩ | ⟨h1, h2⟩
  · left
    obtain ⟨r2, e1, e2, e3, e4⟩ := bluetoothReport_some oor strongMagnitude weakMagnitude
    rw [h3] at e1
    cases e1
    refine ⟨h1, h2, h3, e2, ?_, e4⟩
    have : r[0]? = (r.take 8)[0]? := by rw [List.getElem?_take_of_lt (by norm_num)]
    rw [this, e3]
    rfl
  · right
    refine ⟨h1, h2, ?_⟩
    subst h2
    rw [usbReport_eq]
    simp [kReportId05]

theorem packId_eq (vendor product : Nat) (hv : vendor < 2 ^ 16) (hp : product < 2 ^ 16) :
    packId vendor product = vendor * 65536 + product := by
  unfold packId
  rw [Nat.shiftLeft_eq, Nat.mod_eq_of_lt (by omega), Nat.mul_comm,
    ← Nat.mul_add_lt_is_or hp vendor]

/-- C11: for 16-bit `vendor` and `product`, `isDualShock4` holds exactly for
(0x054c, 0x05c4), (0x054c, 0x09cc) and (0x2e95, 0x7725), and the `gamepadId` that
`newDualShock4` stores, `(vendor << 16) | product` in 32 bits, is `0x2e957725` exactly
for (0x2e95, 0x7725). -/
theorem isDualShock4_iff (vendor product : Nat) (hv : vendor < 2 ^ 16)
    (hp : product < 2 ^ 16) :
    (isDualShock4 vendor product = true ↔
      (vendor = 0x054c ∧ product = 0x05c4) ∨ (vendor = 0x054c ∧ product = 0x09cc) ∨
      (vendor = 0x2e95 ∧ product = 0x7725)) ∧
    ∀ (io : IOKit) (device : Nat),
      (newDualShock4 io device vendor product).gamepadId = vendor * 65536 + product ∧
      ((newDualShock4 io device vendor product).gamepadId = 0x2e957725 ↔
        vendor = 0x2e95 ∧ product = 0x7725) := by
  have hid := packId_eq vendor product hv hp
  constructor
  · unfold isDualShock4
    rw [hid]
    simp only [kSonyProduct05c4, kSonyProduct09cc, kScufProduct7725]
    constructor
    · intro h
      split at h
      · left; omega
      · split at h
        · right; left; omega
        · split at h
          · right; right; omega
          · cases h
    · rintro (⟨h1, h2⟩ | ⟨h1, h2⟩ | ⟨h1, h2⟩) <;> subst h1 h2 <;> rfl
  · intro io device
    have hg : (newDualShock4 io device vendor product).gamepadId = packId vendor product := rfl
    rw [hg, hid]
    exact ⟨rfl, by omega⟩

/-- Witness for C11: the Scuf device, vendor 0x2e95 and product 0x7725. -/
theorem isDualShock4_iff_witness :
    isDualShock4 0x2e95 0x7725 = true ∧
    (newDualShock4 ⟨fun _ => some "USB", "USB", "Bluetooth", "BluetoothLowEnergy"⟩
      0 0x2e95 0x7725).gamepadId = 0x2e957725 := by
  obtain ⟨h1, h2⟩ := isDualShock4_iff 0x2e95 0x7725 (by decide) (by decide)
  exact ⟨h1.2 (Or.inr (Or.inr ⟨rfl, rfl⟩)),
    (h2 ⟨fun _ => some "USB", "USB", "Bluetooth", "BluetoothLowEnergy"⟩ 0).2.2 ⟨rfl, rfl⟩⟩

end Gamepad

namespace Audio

theorem int16_range (z : Int) : -32768 ≤ int16 z ∧ int16 z < 32768 := by
  unfold int16
  omega

theorem decode_encode (l : Int) (h : -32768 ≤ l ∧ l < 32768) :
    decodeInt16LE (uint8 l) (uint8 (l >>> (8 : Nat))) = l := by
  have e : l >>> (8 : Nat) = l / 256 := by
    rw [Int.shiftRight_eq_div_pow]
    rfl
  rw [e]
  unfold decodeInt16LE uint8
  split <;> omega

theorem uint8_lt (z : Int) : uint8 z < 256 := by
  unfold uint8
  omega

theorem writeFrame_spec {α : Type} (toInt : α → Int) (il ir : List α) (b : List Nat) (i : Nat)
    (x y : α) (hx : il[i]? = some x) (hy : ir[i]? = some y) (hlen : 4 * i + 3 < b.length) :
    ∃ b2, writeFrame toInt il ir b i = some b2 ∧ b2.length = b.length ∧
      b2[4 * i]? = some (uint8 (int16 (toInt x))) ∧
      b2[4 * i + 1]? = some (uint8 (int16 (toInt x) >>> (8 : Nat))) ∧
      b2[4 * i + 2]? = some (uint8 (int16 (toInt y))) ∧
      b2[4 * i + 3]? = some (uint8 (int16 (toInt y) >>> (8 : Nat))) ∧
      ∀ j, j < 4 * i → b2[j]? = b[j]? := by
  refine ⟨_, by simp [writeFrame, hx, hy]; rfl, by simp, ?_, ?_, ?_, ?_, ?_⟩
  · simp [List.getElem?_set]
    omega
  · simp [List.getElem?_set]
    omega
  · simp [List.getElem?_set]
    omega
  · simp [List.getElem?_set]
    omega
  · intro j hj
    rw [List.getElem?_set_ne (by omega), List.getElem?_set_ne (by omega),
      List.getElem?_set_ne (by omega), List.getElem?_set_ne (by omega)]


/-- Loop invariant of the callback: after `k` iterations the first `k` frames are written. -/
theorem pcmLoop_spec {α : Type} (toInt : α → Int) (il ir : List α)
    (hlen : il.length = ir.length) (k : Nat) (hk : k ≤ il.length) :
    ∃ b, (List.range k).foldlM (writeFrame toInt il ir) (List.replicate (il.length * 4) 0)
        = some b ∧ b.length = 4 * il.length ∧
      ∀ i x y, i < k → il[i]? = some x → ir[i]? = some y →
        b[4 * i]? = some (uint8 (int16 (toInt x))) ∧
        b[4 * i + 1]? = some (uint8 (int16 (toInt x) >>> (8 : Nat))) ∧
        b[4 * i + 2]? = some (uint8 (int16 (toInt y))) ∧
        b[4 * i + 3]? = some (uint8 (int16 (toInt y) >>> (8 : Nat))) := by
  induction k with
  | zero =>
    refine ⟨_, rfl, by simp; omega, ?_⟩
    intro i x y hi
    omega
  | succ k ih =>
    obtain ⟨b, hb, hbl, hinv⟩ := ih (by omega)
    have hx : il[k]? = some (il[k]) := List.getElem?_eq_getElem (by omega)
    have hy : ir[k]? = some (ir[k]) := List.getElem?_eq_getElem (by omega)
    obtain ⟨b2, h1, h2, h3, h4, h5, h6, h7⟩ :=
      writeFrame_spec toInt il ir b k _ _ hx hy (by omega)
    refine ⟨b2, ?_, by omega, ?_⟩
    · rw [List.range_succ, List.foldlM_append, hb]
      simp [h1]
    · intro i x y hi hxi hyi
      rcases Nat.lt_or_ge i k with hlt | hge
      · obtain ⟨e1, e2, e3, e4⟩ := hinv i x y hlt hxi hyi
        rw [h7 _ (by omega), h7 _ (by omega), h7 _ (by omega), h7 _ (by omega)]
        exact ⟨e1, e2, e3, e4⟩
      · have hik : i = k := by omega
        subst hik
        rw [hx] at hxi
        rw [hy] at hyi
        cases hxi
        cases hyi
        exact ⟨h3, h4, h5, h6⟩

/-- C2: for channels of equal length `n` the buffer has `4 n` bytes; frame `i` holds the low
and high byte of the left int16 sample and then of the right one, and reading each byte pair
as a little-endian signed 16-bit integer gives back the int16 samples, negative ones too. -/
theorem pcmBuffer_interleaved {α : Type} (toInt : α → Int) (il ir : List α)
    (hlen : il.length = ir.length) :
    ∃ b, pcmBuffer toInt il ir = some b ∧ b.length = 4 * il.length ∧
      ∀ i x y, il[i]? = some x → ir[i]? = some y →
        ∃ b0 b1 b2 b3, b[4 * i]? = some b0 ∧ b[4 * i + 1]? = some b1 ∧
          b[4 * i + 2]? = some b2 ∧ b[4 * i + 3]? = some b3 ∧
          b0 = uint8 (int16 (toInt x)) ∧ b1 = uint8 (int16 (toInt x) >>> (8 : Nat)) ∧
          b2 = uint8 (int16 (toInt y)) ∧ b3 = uint8 (int16 (toInt y) >>> (8 : Nat)) ∧
          decodeInt16LE b0 b1 = int16 (toInt x) ∧ decodeInt16LE b2 b3 = int16 (toInt y) ∧
          (-32768 ≤ int16 (toInt x) ∧ int16 (toInt x) < 32768) ∧
          (-32768 ≤ int16 (toInt y) ∧ int16 (toInt y) < 32768) := by
  obtain ⟨b, hb, hbl, hinv⟩ := pcmLoop_spec toInt il ir hlen il.length (le_refl _)
  refine ⟨b, hb, hbl, ?_⟩
  intro i x y hx hy
  have hi : i < il.length := by
    rcases Nat.lt_or_ge i il.length with h | h
    · exact h
    · rw [List.getElem?_eq_none h] at hx; cases hx
  obtain ⟨e1, e2, e3, e4⟩ := hinv i x y hi hx hy
  exact ⟨_, _, _, _, e1, e2, e3, e4, rfl, rfl, rfl, rfl,
    decode_encode _ (int16_range _), decode_encode _ (int16_range _),
    int16_range _, int16_range _⟩

/-- Witness for C2: two frames with negative samples; `-2` is stored as `fe ff`. -/
theorem pcmBuffer_interleaved_witness :
    ∃ b, pcmBuffer id [1, -2] [-32768, 258] = some b ∧ b.length = 8 ∧
      b[4]? = some 254 ∧ b[5]? = some 255 ∧ decodeInt16LE 254 255 = -2 := by
  obtain ⟨b, h1, h2, h3⟩ := pcmBuffer_interleaved id [1, -2] [-32768, 258] rfl
  obtain ⟨b0, b1, b2, b3, e0, e1, -, -, f0, f1, -, -, d0, -⟩ :=
    h3 1 (-2) 258 (by decide) (by decide)
  have g0 : b0 = 254 := by rw [f0]; decide
  have g1 : b1 = 255 := by rw [f1]; decide
  subst g0 g1
  exact ⟨b, h1, h2, e0, e1, by decide⟩

end Audio

namespace Ebiten

theorem covers_upper (W H X Y : ℚ) (hW : 0 ≤ W) (hH : 0 ≤ H) (hX : 0 < X) (hY : 0 < Y) :
    covers (0, 0) (W, 0) (0, H) (X, Y) = true ↔ H * X + W * Y < W * H := by
  simp only [covers, insideEdge, topLeft, edge]
  simp only [sub_zero, zero_sub, mul_zero, sub_self, zero_mul]
  by_cases hpos : 0 < W * H
  · have hW' : 0 < W := by
      rcases hW.lt_or_eq with h | h
      · exact h
      · rw [← h] at hpos; simp at hpos
    have hH' : 0 < H := by
      rcases hH.lt_or_eq with h | h
      · exact h
      · rw [← h] at hpos; simp at hpos
    have e1 : 0 < W * Y := mul_pos hW' hY
    have e2 : 0 < H * X := mul_pos hH' hX
    rw [if_pos hpos]
    simp only [Bool.and_eq_true, Bool.or_eq_true, decide_eq_true_eq]
    constructor
    · rintro ⟨⟨-, h2⟩, -⟩
      rcases h2 with h2 | ⟨-, h3⟩
      · nlinarith
      · rcases h3 with ⟨h4, -⟩ | h4
        · exact absurd h4 (ne_of_gt hH')
        · exact absurd h4 (not_lt.2 hH)
    · intro h
      refine ⟨⟨Or.inl e1, Or.inl (by nlinarith)⟩, Or.inl (by nlinarith)⟩
  · rw [if_neg hpos, if_neg (by nlinarith [mul_nonneg hW hH])]
    have e1 : 0 ≤ W * Y := mul_nonneg hW hY.le
    have e2 : 0 ≤ H * X := mul_nonneg hH hX.le
    constructor
    · intro h; cases h
    · intro h; exact absurd (by linarith) hpos

theorem covers_lower (W H X Y : ℚ) (hW : 0 ≤ W) (hH : 0 ≤ H) (hX : 0 < X) (hY : 0 < Y) :
    covers (W, 0) (0, H) (W, H) (X, Y) = true ↔
      X < W ∧ Y < H ∧ W * H ≤ H * X + W * Y := by
  simp only [covers, insideEdge, topLeft, edge]
  simp only [sub_zero, zero_sub, mul_zero, sub_self, zero_mul]
  by_cases hpos : 0 < W * H
  · have hW' : 0 < W := by
      rcases hW.lt_or_eq with h | h
      · exact h
      · rw [← h] at hpos; simp at hpos
    have hH' : 0 < H := by
      rcases hH.lt_or_eq with h | h
      · exact h
      · rw [← h] at hpos; simp at hpos
    rw [if_neg (by nlinarith), if_pos (by nlinarith)]
    simp only [Bool.and_eq_true, Bool.or_eq_true, decide_eq_true_eq]
    constructor
    · rintro ⟨⟨h1, h2⟩, h3⟩
      have a1 : X < W := by
        rcases h1 with h1 | ⟨-, h1⟩
        · by_contra hc
          nlinarith [mul_nonneg hH'.le (sub_nonneg.2 (not_lt.1 hc))]
        · rcases h1 with ⟨h4, -⟩ | h4
          · exact absurd h4 (ne_of_gt hH')
          · exact absurd h4 (not_lt.2 hH)
      have a2 : Y < H := by
        rcases h2 with h2 | ⟨-, h2⟩
        · by_contra hc
          nlinarith [mul_nonneg hW'.le (sub_nonneg.2 (not_lt.1 hc))]
        · rcases h2 with ⟨-, h4⟩ | h4
          · exact absurd h4 (not_lt.2 hW)
          · exact absurd h4 (lt_irrefl _)
      refine ⟨a1, a2, ?_⟩
      rcases h3 with h3 | ⟨h3, -⟩
      · nlinarith
      · nlinarith
    · rintro ⟨a1, a2, a3⟩
      refine ⟨⟨Or.inl (by nlinarith [mul_pos hH' (sub_pos.2 a1)]),
        Or.inl (by nlinarith [mul_pos hW' (sub_pos.2 a2)])⟩, ?_⟩
      rcases a3.lt_or_eq with h | h
      · exact Or.inl (by nlinarith)
      · exact Or.inr ⟨by nlinarith, Or.inr hH'⟩
  · have hz : W * H = 0 := le_antisymm (not_lt.1 hpos) (mul_nonneg hW hH)
    rw [if_neg (by nlinarith), if_neg (by nlinarith)]
    constructor
    · intro h; cases h
    · rintro ⟨a1, a2, -⟩
      exact absurd (mul_pos (lt_trans hX a1) (lt_trans hY a2)) hpos


theorem centre_lt (i w : Nat) : ((i : ℚ) + 1 / 2 < (w : ℚ)) ↔ i < w := by
  constructor
  · intro h
    by_contra hc
    have : (w : ℚ) ≤ (i : ℚ) := by exact_mod_cast not_lt.1 hc
    linarith
  · intro h
    have : (i : ℚ) + 1 ≤ (w : ℚ) := by exact_mod_cast h
    linarith

theorem centre_pos (i : Nat) : (0 : ℚ) < (i : ℚ) + 1 / 2 := by
  have : (0 : ℚ) ≤ (i : ℚ) := Nat.cast_nonneg i
  linarith

/-- Each pixel centre of `[0,w) × [0,h)` is covered by exactly one triangle of the quad
`{0,1,2,1,2,3}`, every other pixel centre by none. -/
theorem quad_coverage (w h i j : Nat) :
    (covers (0, 0) ((w : ℚ), 0) (0, (h : ℚ)) ((i : ℚ) + 1 / 2, (j : ℚ) + 1 / 2) = true ∨
     covers ((w : ℚ), 0) (0, (h : ℚ)) ((w : ℚ), (h : ℚ)) ((i : ℚ) + 1 / 2, (j : ℚ) + 1 / 2) = true
      ↔ i < w ∧ j < h) ∧
    ¬ (covers (0, 0) ((w : ℚ), 0) (0, (h : ℚ)) ((i : ℚ) + 1 / 2, (j : ℚ) + 1 / 2) = true ∧
     covers ((w : ℚ), 0) (0, (h : ℚ)) ((w : ℚ), (h : ℚ)) ((i : ℚ) + 1 / 2, (j : ℚ) + 1 / 2) = true) := by
  have hW : (0 : ℚ) ≤ (w : ℚ) := Nat.cast_nonneg w
  have hH : (0 : ℚ) ≤ (h : ℚ) := Nat.cast_nonneg h
  have hX := centre_pos i
  have hY := centre_pos j
  rw [covers_upper _ _ _ _ hW hH hX hY, covers_lower _ _ _ _ hW hH hX hY,
    centre_lt, centre_lt]
  refine ⟨⟨?_, ?_⟩, ?_⟩
  · rintro (h1 | ⟨h1, h2, -⟩)
    · have a1 : (i : ℚ) + 1 / 2 < (w : ℚ) := by
        by_contra hc
        nlinarith [mul_nonneg hH (sub_nonneg.2 (not_lt.1 hc)), mul_nonneg hW hY.le]
      have a2 : (j : ℚ) + 1 / 2 < (h : ℚ) := by
        by_contra hc
        nlinarith [mul_nonneg hW (sub_nonneg.2 (not_lt.1 hc)), mul_nonneg hH hX.le]
      exact ⟨(centre_lt i w).1 a1, (centre_lt j h).1 a2⟩
    · exact ⟨h1, h2⟩
  · rintro ⟨h1, h2⟩
    rcases lt_or_le ((h : ℚ) * ((i : ℚ) + 1 / 2) + (w : ℚ) * ((j : ℚ) + 1 / 2))
      ((w : ℚ) * (h : ℚ)) with h3 | h3
    · exact Or.inl h3
    · exact Or.inr ⟨h1, h2, h3⟩
  · rintro ⟨h1, -, -, h2⟩
    exact absurd h1 (not_lt.2 h2)

theorem blend_transparent (c : vec4) : blend c (ofRGBA ⟨0, 0, 0, 0⟩) = c := by
  simp [blend, ofRGBA]

theorem drawTriangle_const (s : Shader) (buf : List ℚ) (images : Fin 4 → Option Image)
    (dst : Image) (va vb vc : Vertex) (c : vec4)
    (hc : ∀ pos tex col, s.Fragment buf images pos tex col = c) (i j : Nat) :
    (drawTriangle s buf images dst va vb vc).pix i j =
      if i < dst.width ∧ j < dst.height ∧
          covers (va.DstX, va.DstY) (vb.DstX, vb.DstY) (vc.DstX, vc.DstY)
            ((i : ℚ) + 1 / 2, (j : ℚ) + 1 / 2) = true then
        toRGBA (blend c (ofRGBA (dst.pix i j)))
      else dst.pix i j := by
  simp only [drawTriangle, hc]

/-- The quad `{0,1,2,1,2,3}` on the corners of `[0,w) × [0,h)` with a constant fragment
colour: every pixel of the rectangle inside the target is composed once. -/
theorem drawTriangles_quad (s : Shader) (buf : List ℚ) (images : Fin 4 → Option Image)
    (dst : Image) (w h : Nat) (v0 v1 v2 v3 : Vertex) (c : vec4)
    (h0 : v0.DstX = 0 ∧ v0.DstY = 0) (h1 : v1.DstX = w ∧ v1.DstY = 0)
    (h2 : v2.DstX = 0 ∧ v2.DstY = h) (h3 : v3.DstX = w ∧ v3.DstY = h)
    (hc : ∀ pos tex col, s.Fragment buf images pos tex col = c) :
    (drawTriangles s buf images [v0, v1, v2, v3] [0, 1, 2, 1, 2, 3] dst).width = dst.width ∧
    (drawTriangles s buf images [v0, v1, v2, v3] [0, 1, 2, 1, 2, 3] dst).height = dst.height ∧
    ∀ i j, (drawTriangles s buf images [v0, v1, v2, v3] [0, 1, 2, 1, 2, 3] dst).pix i j =
      if i < dst.width ∧ j < dst.height ∧ i < w ∧ j < h then
        toRGBA (blend c (ofRGBA (dst.pix i j)))
      else dst.pix i j := by
  have hd : drawTriangles s buf images [v0, v1, v2, v3] [0, 1, 2, 1, 2, 3] dst =
      drawTriangle s buf images (drawTriangle s buf images dst v0 v1 v2) v1 v2 v3 := rfl
  rw [hd]
  refine ⟨rfl, rfl, ?_⟩
  intro i j
  obtain ⟨hcov, hdisj⟩ := quad_coverage w h i j
  rw [drawTriangle_const s buf images _ v1 v2 v3 c hc,
    drawTriangle_const s buf images _ v0 v1 v2 c hc,
    h0.1, h0.2, h1.1, h1.2, h2.1, h2.2, h3.1, h3.2]
  have hw : (drawTriangle s buf images dst v0 v1 v2).width = dst.width := rfl
  have hh : (drawTriangle s buf images dst v0 v1 v2).height = dst.height := rfl
  rw [hw, hh]
  generalize covers (0, 0) ((w : ℚ), 0) (0, (h : ℚ)) ((i : ℚ) + 1 / 2, (j : ℚ) + 1 / 2)
    = cu at hcov hdisj ⊢
  generalize covers ((w : ℚ), 0) (0, (h : ℚ)) ((w : ℚ), (h : ℚ))
    ((i : ℚ) + 1 / 2, (j : ℚ) + 1 / 2) = cl at hcov hdisj ⊢
  by_cases hb : i < dst.width ∧ j < dst.height
  · by_cases hin : i < w ∧ j < h
    · cases cu <;> cases cl <;> simp_all
    · have hu : cu = false := by
        cases cu
        · rfl
        · exact absurd (hcov.1 (Or.inl rfl)) hin
      have hl : cl = false := by
        cases cl
        · rfl
        · exact absurd (hcov.1 (Or.inr rfl)) hin
      subst hu hl
      simp [hin]
  · have e : ∀ P : Prop, ¬ (i < dst.width ∧ j < dst.height ∧ P) := fun P hx => hb ⟨hx.1, hx.2.1⟩
    rw [if_neg (e _), if_neg (e _), if_neg (e _)]


theorem toChannel_eq (v : ℚ) (k : Nat) (h0 : 0 ≤ v) (h1 : v ≤ 1)
    (hlo : (k : ℚ) ≤ v * 255 + 1 / 2) (hhi : v * 255 + 1 / 2 < (k : ℚ) + 1) :
    toChannel v = k := by
  unfold toChannel
  rw [min_eq_right h1, max_eq_right h0]
  have : ⌊v * 255 + 1 / 2⌋ = (k : ℤ) := by
    rw [Int.floor_eq_iff]
    exact ⟨by exact_mod_cast hlo, by exact_mod_cast hhi⟩
  rw [this]
  simp

theorem mod_example : mod (-1 / 4) 1 = 3 / 4 := by
  unfold mod
  have : ⌊(-1 / 4 : ℚ) / 1⌋ = -1 := by
    rw [Int.floor_eq_iff]
    norm_num
  rw [this]
  norm_num

theorem truncMod_example : truncMod (-1 / 4) 1 = -1 / 4 := by
  unfold truncMod
  have : ⌈(-1 / 4 : ℚ) / 1⌉ = 0 := by
    rw [Int.ceil_eq_iff]
    norm_num
  rw [if_neg (by norm_num), this]
  norm_num



/-- A draw of the quad over `[0,w) × [0,h)` whose fragment colour is the constant `c`. -/
theorem DrawTrianglesShader_quad (dst : Image) (w h : Nat) (v0 v1 v2 v3 : Vertex)
    (s : Shader) (options : DrawOptions) (buf : List ℚ) (c : vec4)
    (h0 : v0.DstX = 0 ∧ v0.DstY = 0) (h1 : v1.DstX = w ∧ v1.DstY = 0)
    (h2 : v2.DstX = 0 ∧ v2.DstY = h) (h3 : v3.DstX = w ∧ v3.DstY = h)
    (hself : boundAsSource dst options = false)
    (hbind : bindUniforms s.uniforms options.Uniforms = .ok buf)
    (hc : ∀ pos tex col, s.Fragment buf options.Images pos tex col = c) :
    ∃ out, DrawTrianglesShader dst [v0, v1, v2, v3] [0, 1, 2, 1, 2, 3] s options = .ok out ∧
      out.width = dst.width ∧ out.height = dst.height ∧
      ∀ i j, out.pix i j =
        if i < dst.width ∧ j < dst.height ∧ i < w ∧ j < h then
          toRGBA (blend c (ofRGBA (dst.pix i j)))
        else dst.pix i j := by
  obtain ⟨e1, e2, e3⟩ :=
    drawTriangles_quad s buf options.Images dst w h v0 v1 v2 v3 c h0 h1 h2 h3 hc
  refine ⟨_, ?_, e1, e2, e3⟩
  unfold DrawTrianglesShader
  rw [hself, hbind]
  simp

theorem DrawRectShader_const (dst : Image) (w h : Nat) (s : Shader) (options : DrawOptions)
    (buf : List ℚ) (c : vec4)
    (hself : boundAsSource dst options = false)
    (hbind : bindUniforms s.uniforms options.Uniforms = .ok buf)
    (hc : ∀ pos tex col, s.Fragment buf options.Images pos tex col = c) :
    ∃ out, DrawRectShader dst w h s options = .ok out ∧
      out.width = dst.width ∧ out.height = dst.height ∧
      ∀ i j, out.pix i j =
        if i < dst.width ∧ j < dst.height ∧ i < w ∧ j < h then
          toRGBA (blend c (ofRGBA (dst.pix i j)))
        else dst.pix i j := by
  unfold DrawRectShader
  exact DrawTrianglesShader_quad dst w h _ _ _ _ s options buf c ⟨rfl, rfl⟩ ⟨rfl, rfl⟩
    ⟨rfl, rfl⟩ ⟨rfl, rfl⟩ hself hbind hc

/-- On a new image the rectangle shows the fragment colour, the rest stays transparent. -/
theorem DrawRectShader_new (id W H w h : Nat) (s : Shader) (options : DrawOptions)
    (buf : List ℚ) (c : vec4)
    (hself : boundAsSource (NewImage id W H) options = false)
    (hbind : bindUniforms s.uniforms options.Uniforms = .ok buf)
    (hc : ∀ pos tex col, s.Fragment buf options.Images pos tex col = c) :
    ∃ out, DrawRectShader (NewImage id W H) w h s options = .ok out ∧
      out.width = W ∧ out.height = H ∧
      ∀ i j, out.At i j =
        if i < W ∧ j < H ∧ i < w ∧ j < h then toRGBA c else ⟨0, 0, 0, 0⟩ := by
  obtain ⟨out, e1, e2, e3, e4⟩ :=
    DrawRectShader_const (NewImage id W H) w h s options buf c hself hbind hc
  refine ⟨out, e1, e2, e3, ?_⟩
  intro i j
  have hW : (NewImage id W H).width = W := rfl
  have hH : (NewImage id W H).height = H := rfl
  have hp : (NewImage id W H).pix i j = ⟨0, 0, 0, 0⟩ := rfl
  rw [hW] at e2
  rw [hH] at e3
  unfold Image.At
  rw [e4 i j, e2, e3, hW, hH, hp, blend_transparent]
  by_cases hb : i < W ∧ j < H
  · rw [if_pos hb]
  · rw [if_neg hb, if_neg (fun hx => hb ⟨hx.1, hx.2.1⟩)]

theorem no_source_bound (dst : Image) (u : String → Option UniformValue) :
    boundAsSource dst ⟨fun _ => none, u⟩ = false := by
  simp [boundAsSource]


theorem toRGBA_red : toRGBA ⟨1, 0, 0, 1⟩ = ⟨255, 0, 0, 255⟩ := by
  have h1 : toChannel 1 = 255 :=
    toChannel_eq 1 255 (by norm_num) (by norm_num) (by norm_num) (by norm_num)
  have h0 : toChannel 0 = 0 :=
    toChannel_eq 0 0 (by norm_num) (by norm_num) (by norm_num) (by norm_num)
  simp [toRGBA, h1, h0]

theorem toRGBA_white : toRGBA ⟨1, 1, 1, 1⟩ = ⟨255, 255, 255, 255⟩ := by
  have h1 : toChannel 1 = 255 :=
    toChannel_eq 1 255 (by norm_num) (by norm_num) (by norm_num) (by norm_num)
  simp [toRGBA, h1]

/-- C7: on a new `W × H` image, `DrawRectShader(w, h)` with a shader that only has a
`Fragment` returning the constant `c` leaves `c` at the pixels of `[0,w) × [0,h)` and
transparent black elsewhere, with any source images bound (other than the destination,
which no draw call accepts); `DrawTrianglesShader` with the indices `{0,1,2,1,2,3}` on
the corners of the destination fills every pixel with `c`. -/
theorem constant_fragment_fills (c : vec4) (id W H w h : Nat) (options : DrawOptions)
    (hw : w ≤ W) (hh : h ≤ H)
    (hsrc : boundAsSource (NewImage id W H) options = false) :
    (∃ out, DrawRectShader (NewImage id W H) w h (constShader c) options = .ok out ∧
      out.width = W ∧ out.height = H ∧
      ∀ i j, out.At i j = if i < w ∧ j < h then toRGBA c else ⟨0, 0, 0, 0⟩) ∧
    (∀ v0 v1 v2 v3 : Vertex, v0.DstX = 0 ∧ v0.DstY = 0 → v1.DstX = W ∧ v1.DstY = 0 →
      v2.DstX = 0 ∧ v2.DstY = H → v3.DstX = W ∧ v3.DstY = H →
      ∃ out, DrawTrianglesShader (NewImage id W H) [v0, v1, v2, v3] [0, 1, 2, 1, 2, 3]
          (constShader c) options = .ok out ∧
        out.width = W ∧ out.height = H ∧
        ∀ i j, out.At i j = if i < W ∧ j < H then toRGBA c else ⟨0, 0, 0, 0⟩) := by
  constructor
  · obtain ⟨out, e1, e2, e3, e4⟩ := DrawRectShader_new id W H w h (constShader c) options [] c
      hsrc rfl (fun _ _ _ => rfl)
    refine ⟨out, e1, e2, e3, ?_⟩
    intro i j
    rw [e4 i j]
    by_cases hin : i < w ∧ j < h
    · rw [if_pos hin, if_pos ⟨by omega, by omega, hin.1, hin.2⟩]
    · rw [if_neg hin, if_neg (fun hx => hin hx.2.2)]
  · intro v0 v1 v2 v3 h0 h1 h2 h3
    obtain ⟨out, e1, e2, e3, e4⟩ := DrawTrianglesShader_quad (NewImage id W H) W H v0 v1 v2 v3
      (constShader c) options [] c h0 h1 h2 h3 hsrc rfl (fun _ _ _ => rfl)
    refine ⟨out, e1, e2, e3, ?_⟩
    intro i j
    have hW : (NewImage id W H).width = W := rfl
    have hH : (NewImage id W H).height = H := rfl
    have hp : (NewImage id W H).pix i j = ⟨0, 0, 0, 0⟩ := rfl
    rw [hW] at e2
    rw [hH] at e3
    unfold Image.At
    rw [e4 i j, e2, e3, hW, hH, hp, blend_transparent]
    by_cases hb : i < W ∧ j < H
    · rw [if_pos hb, if_pos ⟨hb.1, hb.2, hb.1, hb.2⟩, if_pos hb]
    · rw [if_neg hb, if_neg hb]

/-- Witness for C7: `TestShaderFillWithDrawImage`, a 16 × 16 target, an 8 × 8 source bound,
the colour `vec4(1, 0, 0, 1)` drawn at half size. -/
theorem constant_fragment_fills_witness :
    ∃ out, DrawRectShader (NewImage 0 16 16) 8 8 (constShader ⟨1, 0, 0, 1⟩)
        ⟨fun k => if k = 0 then some (NewImage 1 8 8) else none, fun _ => none⟩ = .ok out ∧
      out.At 7 7 = ⟨255, 0, 0, 255⟩ ∧ out.At 8 7 = ⟨0, 0, 0, 0⟩ := by
  obtain ⟨⟨out, e1, -, -, e4⟩, -⟩ := constant_fragment_fills ⟨1, 0, 0, 1⟩ 0 16 16 8 8
    ⟨fun k => if k = 0 then some (NewImage 1 8 8) else none, fun _ => none⟩
    (by decide) (by decide) (by decide)
  refine ⟨out, e1, ?_, ?_⟩
  · rw [e4 7 7, if_pos (by decide), toRGBA_red]
  · rw [e4 8 7, if_neg (by decide)]


theorem mod_bounds_pos (x y : ℚ) (hy : 0 < y) : 0 ≤ mod x y ∧ mod x y < y := by
  unfold mod
  have h1 : ((⌊x / y⌋ : ℤ) : ℚ) ≤ x / y := Int.floor_le _
  have h2 : x / y < (⌊x / y⌋ : ℤ) + 1 := Int.lt_floor_add_one _
  rw [le_div_iff₀ hy] at h1
  rw [div_lt_iff₀ hy] at h2
  constructor <;> nlinarith

theorem mod_bounds_neg (x y : ℚ) (hy : y < 0) : y < mod x y ∧ mod x y ≤ 0 := by
  unfold mod
  have h1 : ((⌊x / y⌋ : ℤ) : ℚ) ≤ x / y := Int.floor_le _
  have h2 : x / y < (⌊x / y⌋ : ℤ) + 1 := Int.lt_floor_add_one _
  rw [le_div_iff_of_neg hy] at h1
  rw [div_lt_iff_of_neg hy] at h2
  constructor <;> nlinarith

/-- C5: for `y ≠ 0` the built-in `mod(x, y)` is `x - y * floor(x / y)`; it lies in
`[0, y)` for positive `y` and in `(y, 0]` for negative `y`, so a non-zero result has the
sign of the divisor, unlike the truncating remainder. `mod(-0.25, 1.0)` is `0.75` (the
truncating remainder is `-0.25`), its channel value `round(0.75 * 255)` is 191, and the
half-size draw of `TestShaderFuncMod` agrees with red `0xc0 = 192` within tolerance 2. -/
theorem mod_sign_of_divisor (x y : ℚ) (hy : y ≠ 0) :
    mod x y = x - y * (⌊x / y⌋ : ℤ) ∧
    (0 < y → 0 ≤ mod x y ∧ mod x y < y) ∧
    (y < 0 → y < mod x y ∧ mod x y ≤ 0) ∧
    (mod x y ≠ 0 → (0 < mod x y ↔ 0 < y)) ∧
    mod (-1 / 4) 1 = 3 / 4 ∧ truncMod (-1 / 4) 1 = -1 / 4 ∧
    toChannel (mod (-1 / 4) 1) = 191 ∧
    ∃ out, DrawRectShader (NewImage 0 16 16) 8 8 modShader DrawOptions.nil = .ok out ∧
      (∀ i j, out.At i j = if i < 8 ∧ j < 8 then ⟨191, 0, 0, 255⟩ else ⟨0, 0, 0, 0⟩) ∧
      ∀ i j, sameColors (out.At i j)
        (if i < 8 ∧ j < 8 then ⟨0xc0, 0, 0, 0xff⟩ else ⟨0, 0, 0, 0⟩) 2 = true := by
  have hch : toChannel (mod (-1 / 4) 1) = 191 := by
    rw [mod_example]
    exact toChannel_eq _ 191 (by norm_num) (by norm_num) (by norm_num) (by norm_num)
  refine ⟨rfl, mod_bounds_pos x y, mod_bounds_neg x y, ?_, mod_example, truncMod_example,
    hch, ?_⟩
  · intro hne
    rcases lt_or_gt_of_ne hy with h | h
    · have := mod_bounds_neg x y h
      constructor
      · intro hp; linarith
      · intro hp; linarith
    · have := mod_bounds_pos x y h
      constructor
      · intro _; exact h
      · intro _; exact lt_of_le_of_ne this.1 (Ne.symm hne)
  · obtain ⟨out, e1, -, -, e4⟩ := DrawRectShader_new 0 16 16 8 8 modShader DrawOptions.nil []
      ⟨mod (-1 / 4) 1, 0, 0, 1⟩ (no_source_bound _ _) rfl (fun _ _ _ => rfl)
    have hpx : toRGBA ⟨mod (-1 / 4) 1, 0, 0, 1⟩ = ⟨191, 0, 0, 255⟩ := by
      have h1 : toChannel 1 = 255 :=
        toChannel_eq 1 255 (by norm_num) (by norm_num) (by norm_num) (by norm_num)
      have h0 : toChannel 0 = 0 :=
        toChannel_eq 0 0 (by norm_num) (by norm_num) (by norm_num) (by norm_num)
      simp [toRGBA, h1, h0, hch]
    have hat : ∀ i j, out.At i j = if i < 8 ∧ j < 8 then ⟨191, 0, 0, 255⟩ else ⟨0, 0, 0, 0⟩ := by
      intro i j
      rw [e4 i j, hpx]
      by_cases hin : i < 8 ∧ j < 8
      · rw [if_pos hin, if_pos ⟨by omega, by omega, hin.1, hin.2⟩]
      · rw [if_neg hin, if_neg (fun hx => hin hx.2.2)]
    refine ⟨out, e1, hat, ?_⟩
    intro i j
    rw [hat i j]
    by_cases hin : i < 8 ∧ j < 8
    · rw [if_pos hin, if_pos hin]; decide
    · rw [if_neg hin, if_neg hin]; decide

/-- Witness for C5: `mod(-0.25, 1.0)` lies in `[0, 1)`. -/
theorem mod_sign_of_divisor_witness :
    (1 : ℚ) ≠ 0 ∧ 0 ≤ mod (-1 / 4) 1 ∧ mod (-1 / 4) 1 < 1 := by
  obtain ⟨-, h, -⟩ := mod_sign_of_divisor (-1 / 4) 1 one_ne_zero
  exact ⟨one_ne_zero, h one_pos⟩

theorem matrix_channels :
    toChannel ((matrixA.mul matrixB).mulVec ⟨1, 1, 1, 1⟩).x = 87 ∧
    toChannel ((matrixA.mul matrixB).mulVec ⟨1, 1, 1, 1⟩).y = 82 ∧
    toChannel ((matrixA.mul matrixB).mulVec ⟨1, 1, 1, 1⟩).z = 71 := by
  have hx : ((matrixA.mul matrixB).mulVec ⟨1, 1, 1, 1⟩).x = 87 / 256 := by
    simp only [mat4.mul, mat4.mulVec, vec4.add, vec4.scale, matrixA, matrixB]
    norm_num
  have hy : ((matrixA.mul matrixB).mulVec ⟨1, 1, 1, 1⟩).y = 41 / 128 := by
    simp only [mat4.mul, mat4.mulVec, vec4.add, vec4.scale, matrixA, matrixB]
    norm_num
  have hz : ((matrixA.mul matrixB).mulVec ⟨1, 1, 1, 1⟩).z = 71 / 256 := by
    simp only [mat4.mul, mat4.mulVec, vec4.add, vec4.scale, matrixA, matrixB]
    norm_num
  rw [hx, hy, hz]
  exact ⟨toChannel_eq _ 87 (by norm_num) (by norm_num) (by norm_num) (by norm_num),
    toChannel_eq _ 82 (by norm_num) (by norm_num) (by norm_num) (by norm_num),
    toChannel_eq _ 71 (by norm_num) (by norm_num) (by norm_num) (by norm_num)⟩

/-- C6: matrices are column-major and act on column vectors: `M * v` combines the
columns of `M` with the components of `v`, and `(A * B) * v = A * (B * v)` for all 4 × 4
matrices and vectors. For the matrices of `TestShaderMatrix` and `v = (1, 1, 1, 1)` the
xyz components of `a * b * v` times 255, rounded, are `(87, 82, 71)`, and the draw of the
test leaves exactly that colour (hence within 2 per channel) at every pixel. -/
theorem matrix_product_order (A B : mat4) (v : vec4) :
    (A.mul B).mulVec v = A.mulVec (B.mulVec v) ∧
    (A.mulVec v).x = A.c0.x * v.x + A.c1.x * v.y + A.c2.x * v.z + A.c3.x * v.w ∧
    (toChannel ((matrixA.mul matrixB).mulVec ⟨1, 1, 1, 1⟩).x = 87 ∧
     toChannel ((matrixA.mul matrixB).mulVec ⟨1, 1, 1, 1⟩).y = 82 ∧
     toChannel ((matrixA.mul matrixB).mulVec ⟨1, 1, 1, 1⟩).z = 71) ∧
    ∃ out, DrawRectShader (NewImage 0 16 16) 16 16 matrixShader
        ⟨fun k => if k = 0 then some (NewImage 1 16 16) else none, fun _ => none⟩ = .ok out ∧
      (∀ i j, out.At i j = if i < 16 ∧ j < 16 then ⟨87, 82, 71, 255⟩ else ⟨0, 0, 0, 0⟩) ∧
      ∀ i j, sameColors (out.At i j)
        (if i < 16 ∧ j < 16 then ⟨87, 82, 71, 255⟩ else ⟨0, 0, 0, 0⟩) 2 = true := by
  refine ⟨?_, ?_, matrix_channels, ?_⟩
  · simp only [mat4.mul, mat4.mulVec, vec4.add, vec4.scale, vec4.mk.injEq]
    refine ⟨by ring, by ring, by ring, by ring⟩
  · simp only [mat4.mulVec, vec4.add, vec4.scale]
    ring
  · obtain ⟨out, e1, -, -, e4⟩ := DrawRectShader_new 0 16 16 16 16 matrixShader
      ⟨fun k => if k = 0 then some (NewImage 1 16 16) else none, fun _ => none⟩ []
      ⟨((matrixA.mul matrixB).mulVec ⟨1, 1, 1, 1⟩).x, ((matrixA.mul matrixB).mulVec ⟨1, 1, 1, 1⟩).y,
       ((matrixA.mul matrixB).mulVec ⟨1, 1, 1, 1⟩).z, 1⟩ (by decide) rfl (fun _ _ _ => rfl)
    have hpx : toRGBA ⟨((matrixA.mul matrixB).mulVec ⟨1, 1, 1, 1⟩).x,
        ((matrixA.mul matrixB).mulVec ⟨1, 1, 1, 1⟩).y,
        ((matrixA.mul matrixB).mulVec ⟨1, 1, 1, 1⟩).z, 1⟩ = ⟨87, 82, 71, 255⟩ := by
      have h1 : toChannel 1 = 255 :=
        toChannel_eq 1 255 (by norm_num) (by norm_num) (by norm_num) (by norm_num)
      obtain ⟨hx, hy, hz⟩ := matrix_channels
      simp only [toRGBA, hx, hy, hz, h1]
    have hat : ∀ i j, out.At i j =
        if i < 16 ∧ j < 16 then ⟨87, 82, 71, 255⟩ else ⟨0, 0, 0, 0⟩ := by
      intro i j
      rw [e4 i j, hpx]
      by_cases hin : i < 16 ∧ j < 16
      · rw [if_pos hin, if_pos ⟨hin.1, hin.2, hin.1, hin.2⟩]
      · rw [if_neg hin, if_neg (fun hx => hin hx.2.2)]
    refine ⟨out, e1, hat, ?_⟩
    intro i j
    rw [hat i j]
    by_cases hin : i < 16 ∧ j < 16
    · rw [if_pos hin]; decide
    · rw [if_neg hin]; decide


theorem bindOne_length (d : UniformDecl) (v : Option UniformValue) (a : List ℚ)
    (h : bindOne d v = .ok a) : a.length = d.type.size := by
  unfold bindOne at h
  split at h
  · cases h; simp
  · split at h
    · rename_i hty
      cases h
      rw [hty]; rfl
    · cases h
  · split at h
    · rename_i hlen
      cases h
      exact hlen
    · cases h

theorem bindUniforms_cons (d : UniformDecl) (ds : List UniformDecl)
    (values : String → Option UniformValue) (buf : List ℚ)
    (h : bindUniforms (d :: ds) values = .ok buf) :
    ∃ a rest, bindOne d (values d.name) = .ok a ∧ bindUniforms ds values = .ok rest ∧
      buf = a ++ rest := by
  unfold bindUniforms at h
  split at h
  · rename_i a rest ha hrest
    cases h
    exact ⟨a, rest, ha, hrest, rfl⟩
  · cases h
  · cases h

/-- The first float of a bound array lies at the offset of the uniform. -/
theorem bindUniforms_first (decls : List UniformDecl) (values : String → Option UniformValue)
    (name : String) (ty : UType) (fs buf : List ℚ)
    (hdecl : declType decls name = some ty)
    (hval : values name = some (.FloatSlice fs)) (hpos : 0 < fs.length)
    (hbind : bindUniforms decls values = .ok buf) :
    buf[uniformOffset decls name]? = fs[0]? := by
  induction decls generalizing buf with
  | nil => simp [declType] at hdecl
  | cons d ds ih =>
    obtain ⟨a, rest, ha, hrest, rfl⟩ := bindUniforms_cons d ds values buf hbind
    unfold uniformOffset
    unfold declType at hdecl
    by_cases hname : d.name = name
    · rw [if_pos hname]
      rw [hname, hval] at ha
      unfold bindOne at ha
      simp only at ha
      split at ha
      · cases ha
        rw [List.getElem?_append_left hpos]
      · cases ha
    · rw [if_neg hname] at hdecl ⊢
      have hlen := bindOne_length d _ a ha
      rw [← hlen, List.getElem?_append_right (by omega)]
      have : a.length + uniformOffset ds name - a.length = uniformOffset ds name := by omega
      rw [this]
      exact ih rest hdecl hrest

theorem size_pos_of_elem (n : Nat) (elem : UType) (hn : 1 ≤ n)
    (helem : elem = .float ∨ ∃ k, 1 ≤ k ∧ elem = .mat k) : 0 < n * elem.size := by
  rcases helem with rfl | ⟨k, hk, rfl⟩
  · simp [UType.size]; omega
  · simp only [UType.size]
    exact Nat.mul_pos (by omega) (Nat.mul_pos (by omega) (by omega))

/-- C8: for a uniform declared as an array of `n ≥ 1` floats or matrices and bound to a
float slice of the matching length, the first supplied float lies at the offset of the
uniform in the flat buffer, so the shader reads it as `C[0]` or `C[0][0][0]`; this holds
for `n = 1` too. A shader with that single uniform binds to the slice itself, and the
three shaders of `TestShaderUniformFirstElement` (`[2]float` bound to `[1, 1]`, `[1]float`
bound to `[1]`, `[2]mat2` bound to `[1, 0, 0, 0, 0, 0, 0, 0]`) read `C[0] == 1` and draw a
white pixel. -/
theorem uniform_array_first_element (decls : List UniformDecl)
    (values : String → Option UniformValue) (name : String) (n : Nat) (elem : UType)
    (fs buf : List ℚ) (hn : 1 ≤ n) (helem : elem = .float ∨ ∃ k, 1 ≤ k ∧ elem = .mat k)
    (hdecl : declType decls name = some (.array n elem))
    (hval : values name = some (.FloatSlice fs)) (hlen : fs.length = n * elem.size)
    (hbind : bindUniforms decls values = .ok buf) :
    (∃ first, fs[0]? = some first ∧ buf[uniformOffset decls name]? = some first ∧
      floatArrayAt decls buf name 0 = first ∧
      ∀ k, matArrayAt decls buf name k 0 0 0 = first) ∧
    bindUniforms [⟨name, .array n elem⟩] values = .ok fs ∧
    (floatArrayAt [⟨"C", .array 2 .float⟩] [1, 1] "C" 0 = 1 ∧
     floatArrayAt [⟨"C", .array 1 .float⟩] [1] "C" 0 = 1 ∧
     matArrayAt [⟨"C", .array 2 (.mat 2)⟩] [1, 0, 0, 0, 0, 0, 0, 0] "C" 2 0 0 0 = 1) ∧
    (∃ out, DrawRectShader (NewImage 0 1 1) 1 1 (floatArrayShader 2)
        ⟨fun _ => none, uniformsC [1, 1]⟩ = .ok out ∧ out.At 0 0 = ⟨255, 255, 255, 255⟩) ∧
    (∃ out, DrawRectShader (NewImage 0 1 1) 1 1 (floatArrayShader 1)
        ⟨fun _ => none, uniformsC [1]⟩ = .ok out ∧ out.At 0 0 = ⟨255, 255, 255, 255⟩) ∧
    (∃ out, DrawRectShader (NewImage 0 1 1) 1 1 (matArrayShader 2)
        ⟨fun _ => none, uniformsC [1, 0, 0, 0, 0, 0, 0, 0]⟩ = .ok out ∧
      out.At 0 0 = ⟨255, 255, 255, 255⟩) := by
  have hpos : 0 < fs.length := by
    rw [hlen]; exact size_pos_of_elem n elem hn helem
  have hfirst := bindUniforms_first decls values name _ fs buf hdecl hval hpos hbind
  have e1 : floatArrayAt [⟨"C", .array 2 .float⟩] [1, 1] "C" 0 = 1 := by
    simp [floatArrayAt, uniformOffset]
  have e2 : floatArrayAt [⟨"C", .array 1 .float⟩] [1] "C" 0 = 1 := by
    simp [floatArrayAt, uniformOffset]
  have e3 : matArrayAt [⟨"C", .array 2 (.mat 2)⟩] [1, 0, 0, 0, 0, 0, 0, 0] "C" 2 0 0 0 = 1 := by
    simp [matArrayAt, uniformOffset]
  refine ⟨⟨fs[0], List.getElem?_eq_getElem hpos, ?_, ?_, ?_⟩, ?_, ⟨e1, e2, e3⟩, ?_, ?_, ?_⟩
  · rw [hfirst, List.getElem?_eq_getElem hpos]
  · unfold floatArrayAt
    rw [Nat.add_zero, List.getD_eq_getElem?_getD, hfirst, List.getElem?_eq_getElem hpos]
    rfl
  · intro k
    unfold matArrayAt
    have : 0 * (k * k) + 0 * k + 0 = 0 := by simp
    rw [this, Nat.add_zero, List.getD_eq_getElem?_getD, hfirst, List.getElem?_eq_getElem hpos]
    rfl
  · simp [bindUniforms, bindOne, hval, hlen, UType.size]
  · obtain ⟨out, h1, -, -, h4⟩ := DrawRectShader_new 0 1 1 1 1 (floatArrayShader 2)
      ⟨fun _ => none, uniformsC [1, 1]⟩ [1, 1] ⟨1, 1, 1, 1⟩ (no_source_bound _ _)
      (by simp [floatArrayShader, bindUniforms, bindOne, uniformsC, UType.size])
      (fun _ _ _ => by simp only [floatArrayShader, e1])
    exact ⟨out, h1, by rw [h4 0 0, if_pos (by decide), toRGBA_white]⟩
  · obtain ⟨out, h1, -, -, h4⟩ := DrawRectShader_new 0 1 1 1 1 (floatArrayShader 1)
      ⟨fun _ => none, uniformsC [1]⟩ [1] ⟨1, 1, 1, 1⟩ (no_source_bound _ _)
      (by simp [floatArrayShader, bindUniforms, bindOne, uniformsC, UType.size])
      (fun _ _ _ => by simp only [floatArrayShader, e2])
    exact ⟨out, h1, by rw [h4 0 0, if_pos (by decide), toRGBA_white]⟩
  · obtain ⟨out, h1, -, -, h4⟩ := DrawRectShader_new 0 1 1 1 1 (matArrayShader 2)
      ⟨fun _ => none, uniformsC [1, 0, 0, 0, 0, 0, 0, 0]⟩ [1, 0, 0, 0, 0, 0, 0, 0] ⟨1, 1, 1, 1⟩
      (no_source_bound _ _)
      (by simp [matArrayShader, bindUniforms, bindOne, uniformsC, UType.size])
      (fun _ _ _ => by simp only [matArrayShader, e3])
    exact ⟨out, h1, by rw [h4 0 0, if_pos (by decide), toRGBA_white]⟩

/-- Witness for C8: `var A vec2; var C [1]float` bound to `C = [1]`: `C[0]` is read at
offset 2 of the buffer, behind the zero value of `A`. -/
theorem uniform_array_first_element_witness :
    bindUniforms [⟨"A", .vec 2⟩, ⟨"C", .array 1 .float⟩] (uniformsC [1]) = .ok [0, 0, 1] ∧
    floatArrayAt [⟨"A", .vec 2⟩, ⟨"C", .array 1 .float⟩] [0, 0, 1] "C" 0 = 1 := by
  have hb : bindUniforms [⟨"A", .vec 2⟩, ⟨"C", .array 1 .float⟩] (uniformsC [1])
      = .ok [0, 0, 1] := by
    simp [bindUniforms, bindOne, uniformsC, UType.size, List.replicate]
  obtain ⟨⟨first, h1, -, h3, -⟩, -⟩ := uniform_array_first_element
    [⟨"A", .vec 2⟩, ⟨"C", .array 1 .float⟩] (uniformsC [1]) "C" 1 .float [1] [0, 0, 1]
    (le_refl 1) (Or.inl rfl) (by simp [declType]) (by simp [uniformsC]) (by simp [UType.size]) hb
  have : first = 1 := by simpa using h1.symm
  rw [this] at h3
  exact ⟨hb, h3⟩

end Ebiten
